import Mathlib

/-!
# modules/demux/m3u.c — the m3u/asx meta demux

A shallow embedding of `Demux` (m3u.c lines 134-252) and the properties of its
line assembly and reference extraction.

Bytes are natural numbers (`'\n'` = 10, `'>'` = 62, `'#'` = 35, `'"'` = 34).
The line buffer `char psz_line[MAX_LINE]` is a list of `MAX_LINE` cells whose
initial content is indeterminate; every read and write of it is bounds-checked,
and an access outside the array ends the run in `Exec.oob` (the behaviour of
the C program is undefined from there on).  A pointer into `psz_line` is
represented by the list of cells at and after it.
-/

namespace M3u

/-! ## Constants (m3u.c lines 41-44) -/

/-- Source value of `#define MAX_LINE 1024`; the functions below take the
constant as their parameter `max_line`. -/
def MAX_LINE : Nat := 1024

/-- Source value of `#define TYPE_M3U 1`. -/
def TYPE_M3U : Nat := 1

/-- Source value of `#define TYPE_ASX 2`. -/
def TYPE_ASX : Nat := 2

/-- End-of-line token chosen at lines 156-159: `'>'` for ASX, `'\n'` otherwise. -/
def eol_tok (i_type : Nat) : Nat :=
  if i_type = TYPE_ASX then 62 else 10

/-- String literal `"href"` with its terminator. -/
def lit_href : List Nat := [104, 114, 101, 102, 0]

/-- String literal `"param"` with its terminator. -/
def lit_param : List Nat := [112, 97, 114, 97, 109, 0]

/-- String literal `"mms://"` with its terminator. -/
def lit_mms : List Nat := [109, 109, 115, 58, 47, 47, 0]

/-! ## C library functions used by `Demux`

Each takes the memory at and after its pointer argument; `none` means that the
function read beyond the end of that memory. -/

/-- C `tolower` in the "C" locale. -/
def tolower (c : Nat) : Nat :=
  if 65 ≤ c ∧ c ≤ 90 then c + 32 else c

/-- C `strncasecmp(s1, s2, n)`: difference of the first pair of characters that
differ after case folding among the first `n`, stopping after a NUL; 0 when
there is none. -/
def strncasecmp : List Nat → List Nat → Nat → Option Int
  | _, _, 0 => some 0
  | [], _, _ + 1 => none
  | _, [], _ + 1 => none
  | c1 :: s1, c2 :: s2, n + 1 =>
    if tolower c1 ≠ tolower c2 then some ((tolower c1 : Int) - (tolower c2 : Int))
    else if c1 = 0 then some 0
    else strncasecmp s1 s2 n

/-- C `strchr(s, c)` for a non-NUL `c`: offset of the first `c` in the string
at `s` (`some (some k)`), or a null pointer (`some none`). -/
def strchr : List Nat → Nat → Option (Option Nat)
  | [], _ => none
  | x :: m, c =>
    if x = c then some (some 0)
    else if x = 0 then some none
    else (strchr m c).map (Option.map (· + 1))

/-- The NUL-terminated string at a pointer, as `playlist_Add` reads its
`psz_bol` argument. -/
def cstring : List Nat → Option (List Nat)
  | [] => none
  | x :: m => if x = 0 then some [] else (cstring m).map (x :: ·)

/-! ## State of `Demux` -/

/-- Locals of `Demux` that live across loop iterations, and the strings handed
to `playlist_Add` so far, oldest first. -/
structure DemuxState where
  psz_line : List Nat
  i_linepos : Nat
  b_discard : Bool
  playlist : List (List Nat)
  deriving DecidableEq, Repr

/-- Outcome of a piece of `Demux`: it ran to its end in state `st`, or it
attempted an access outside `psz_line` in state `st`. -/
inductive Exec where
  | ok (st : DemuxState)
  | oob (st : DemuxState)
  deriving DecidableEq, Repr

/-- State carried by an outcome. -/
def Exec.state : Exec → DemuxState
  | .ok st => st
  | .oob st => st

/-- Sequencing: continue with `f` unless an out-of-bounds access happened. -/
def Exec.andThen : Exec → (DemuxState → Exec) → Exec
  | .ok st, f => f st
  | .oob st, _ => .oob st

/-! ## Scanning loops of the end-of-line handler

Each returns how far `psz_bol` advanced. -/

/-- Lines 199-201: `while( *psz_bol == ' ' || *psz_bol == '\t' ||
*psz_bol == '\n' || *psz_bol == '\r' ) psz_bol++;` -/
def skipBlanks : List Nat → Option Nat
  | [] => none
  | x :: m =>
    if x = 32 ∨ x = 9 ∨ x = 10 ∨ x = 13 then (skipBlanks m).map (· + 1)
    else some 0

/-- Lines 217-220: `while( *psz_bol && strncasecmp( psz_bol, "href", 4 ) &&
strncasecmp( psz_bol, "param", 5 ) ) psz_bol++;` -/
def findKeyword : List Nat → Option Nat
  | [] => none
  | x :: m =>
    if x = 0 then some 0
    else match strncasecmp (x :: m) lit_href 4 with
      | none => none
      | some r1 =>
        if r1 = 0 then some 0
        else match strncasecmp (x :: m) lit_param 5 with
          | none => none
          | some r2 =>
            if r2 = 0 then some 0
            else (findKeyword m).map (· + 1)

/-- Lines 224-226: `while( *psz_bol && strncasecmp( psz_bol, "mms://", 6 ) )
psz_bol++;` -/
def findMms : List Nat → Option Nat
  | [] => none
  | x :: m =>
    if x = 0 then some 0
    else match strncasecmp (x :: m) lit_mms 6 with
      | none => none
      | some r =>
        if r = 0 then some 0
        else (findMms m).map (· + 1)

/-! ## The body of `Demux` -/

/-- Lines 240-241: `playlist_Add( p_playlist, psz_bol, ... )` with `psz_bol`
at offset `bol` of `psz_line`. -/
def playlist_Add (st : DemuxState) (bol : Nat) : Exec :=
  match cstring (st.psz_line.drop bol) with
  | none => .oob st
  | some ref => .ok { st with playlist := st.playlist ++ [ref] }

/-- Lines 170-182: body of the inner loop for one byte `b` that is not the
end-of-line token. -/
def storeByte (max_line : Nat) (st : DemuxState) (b : Nat) : Exec :=
  if st.i_linepos = max_line ∨ st.b_discard = true then
    .ok { st with i_linepos := 0, b_discard := true }
  else if st.i_linepos < st.psz_line.length then
    .ok { st with psz_line := st.psz_line.set st.i_linepos b,
                  i_linepos := st.i_linepos + 1 }
  else .oob st

/-- Lines 212-235: the ASX branch, entered with `psz_bol` at offset `bol`. -/
def asxBranch (st : DemuxState) (bol : Nat) : Exec :=
  match findKeyword (st.psz_line.drop bol) with
  | none => .oob st
  | some n1 =>
    match st.psz_line.drop (bol + n1) with
    | [] => .oob st
    | c1 :: _ =>
      if c1 = 0 then .ok st
      else match findMms (st.psz_line.drop (bol + n1)) with
        | none => .oob st
        | some n2 =>
          match st.psz_line.drop (bol + n1 + n2) with
          | [] => .oob st
          | c2 :: _ =>
            if c2 = 0 then .ok st
            else match strchr (st.psz_line.drop (bol + n1 + n2)) 34 with
              | none => .oob st
              | some none => .ok st
              | some (some n3) =>
                playlist_Add
                  { st with psz_line := st.psz_line.set (bol + n1 + n2 + n3) 0 }
                  (bol + n1 + n2)

/-- Lines 188-243: what the outer loop does with an end-of-line token. -/
def endOfLine (i_type : Nat) (st : DemuxState) : Exec :=
  let st1 : DemuxState := { st with b_discard := false }
  if st1.i_linepos = 0 then .ok st1
  else if st1.i_linepos < st1.psz_line.length then
    let st2 : DemuxState :=
      { st1 with psz_line := st1.psz_line.set st1.i_linepos 0, i_linepos := 0 }
    match skipBlanks st2.psz_line with
    | none => .oob st2
    | some bol =>
      if i_type = TYPE_M3U then
        match st2.psz_line.drop bol with
        | [] => .oob st2
        | c :: _ => if c = 35 then .ok st2 else playlist_Add st2 bol
      else asxBranch st2 bol
  else .oob st1

/-- One byte of a packet: the inner loop body when it is not the end-of-line
token (line 168), the end-of-line handler otherwise.  Each iteration of the
inner loop consumes one byte that is not the token, and each iteration of the
outer loop that leaves the inner loop with `i_size != 0` consumes the token.
(The condition at line 168 reads `p_buf[i_bufpos]` before it tests `i_size`;
when `i_size` is 0 both values of the comparison lead to the `continue` of
line 186, and that read of the packet is not modelled.) -/
def demuxByte (max_line i_type : Nat) (st : DemuxState) (b : Nat) : Exec :=
  if b ≠ eol_tok i_type then storeByte max_line st b else endOfLine i_type st

/-- Lines 163-244: the loops over the `i_size` bytes of one packet. -/
def demuxPacket (max_line i_type : Nat) : DemuxState → List Nat → Exec
  | st, [] => .ok st
  | st, b :: rest =>
    (demuxByte max_line i_type st b).andThen
      (fun st1 => demuxPacket max_line i_type st1 rest)

/-- What successive calls of `input_SplitBuffer` deliver: packets of
`i_size > 0` bytes, then a call that returns 0 (end of stream) or, when
`failed`, a negative value. -/
structure Source where
  packets : List (List Nat)
  failed : Bool
  deriving DecidableEq, Repr

/-- Line 161: `while( ( i_size = input_SplitBuffer( ... ) ) > 0 )`. -/
def demuxLoop (max_line i_type : Nat) : DemuxState → List (List Nat) → Exec
  | st, [] => .ok st
  | st, p :: more =>
    if 0 < p.length then
      (demuxPacket max_line i_type st p).andThen
        (fun st1 => demuxLoop max_line i_type st1 more)
    else .ok st

/-- Result of a call of `Demux`: its return value and final state, or undefined
behaviour reached in state `st`. -/
inductive Result where
  | ret (code : Int) (st : DemuxState)
  | undefined (st : DemuxState)
  deriving DecidableEq, Repr

/-- State in which the call ended. -/
def Result.state : Result → DemuxState
  | .ret _ st => st
  | .undefined st => st

/-- References forwarded to the playlist by the call. -/
def Result.sink (r : Result) : List (List Nat) := r.state.playlist

/-- Locals at line 140: `i_linepos = 0`, `b_discard = VLC_FALSE`, and
`psz_line` holding whatever `garbage` the stack held. -/
def initState (max_line : Nat) (garbage : Nat → Nat) : DemuxState :=
  { psz_line := (List.range max_line).map garbage,
    i_linepos := 0, b_discard := false, playlist := [] }

/-- The function `Demux` (lines 134-252).  `found` tells whether
`vlc_object_find` returned a playlist. -/
def Demux (max_line i_type : Nat) (garbage : Nat → Nat) (found : Bool)
    (src : Source) : Result :=
  if found = false then .ret (-1) (initState max_line garbage)
  else match demuxLoop max_line i_type (initState max_line garbage) src.packets with
    | .ok st => .ret 0 st
    | .oob st => .undefined st

/-! ## `Activate` (m3u.c lines 72-116)

A string argument is given by its bytes before the terminator; the library
functions below stop at a byte 0 as they do at the terminator. -/

/-- String literal `".m3u"`. -/
def lit_dot_m3u : List Nat := [46, 109, 51, 117]

/-- String literal `".asx"`. -/
def lit_dot_asx : List Nat := [46, 97, 115, 120]

/-- String literal `"m3u"`. -/
def lit_m3u : List Nat := [109, 51, 117]

/-- String literal `"asx"`. -/
def lit_asx : List Nat := [97, 115, 120]

/-- C `strrchr(s, c)` for a non-NUL `c`: the string from the last `c` of `s`,
or `none` for a null pointer. -/
def strrchr : List Nat → Nat → Option (List Nat)
  | [], _ => none
  | x :: m, c =>
    if x = 0 then none
    else match strrchr m c with
      | some r => some r
      | none => if x = c then some (x :: m) else none

/-- C `strcasecmp(s1, s2)`: difference of the first pair of characters that
differ after case folding, 0 when the strings are equal up to case. -/
def strcasecmp : List Nat → List Nat → Int
  | [], [] => 0
  | [], y :: _ => (tolower 0 : Int) - (tolower y : Int)
  | x :: _, [] => (tolower x : Int) - (tolower 0 : Int)
  | x :: s, y :: t =>
    if tolower x ≠ tolower y then (tolower x : Int) - (tolower y : Int)
    else if x = 0 then 0
    else strcasecmp s t

/-- C `strncmp(s1, s2, n)`: difference of the first pair of characters that
differ among the first `n`, 0 when there is none. -/
def strncmp : List Nat → List Nat → Nat → Int
  | _, _, 0 => 0
  | [], [], _ + 1 => 0
  | [], y :: _, _ + 1 => (0 : Int) - (y : Int)
  | x :: _, [], _ + 1 => (x : Int) - (0 : Int)
  | x :: s, y :: t, n + 1 =>
    if x ≠ y then (x : Int) - (y : Int)
    else if x = 0 then 0
    else strncmp s t n

/-- The test `p_input->psz_demux && !strncmp( p_input->psz_demux, lit, 3 )` of
lines 92 and 97; `none` is a null `psz_demux`. -/
def demuxForced (psz_demux : Option (List Nat)) (lit : List Nat) : Bool :=
  match psz_demux with
  | none => false
  | some d => decide (strncmp d lit 3 = 0)

/-- What a call of `Activate` leaves: its return value, and the `i_type` of the
`demux_sys_t` stored in `p_demux_data`, if one was stored. -/
structure Activated where
  ret : Int
  i_type : Option Nat
  deriving DecidableEq, Repr

/-- The function `Activate` (lines 72-116) on the input name `psz_name` and
the forced demux name `psz_demux`; `malloc_ok` tells whether `malloc`
returned memory.  The result is `none` when `strrchr` finds no `.` and the
null pointer is given to `strcasecmp`.  (The assignments to `i_bufsize`,
`pf_demux` and `pf_rewind` are not modelled.) -/
def Activate (psz_name : List Nat) (psz_demux : Option (List Nat)) (malloc_ok : Bool) :
    Option Activated :=
  match strrchr psz_name 46 with
  | none => none
  | some psz_ext =>
    let i_type : Nat :=
      if strcasecmp psz_ext lit_dot_m3u = 0 ∨ demuxForced psz_demux lit_m3u = true then TYPE_M3U
      else if strcasecmp psz_ext lit_dot_asx = 0 ∨ demuxForced psz_demux lit_asx = true then
        TYPE_ASX
      else 0
    if i_type = 0 then some { ret := -1, i_type := none }
    else if malloc_ok = false then some { ret := -1, i_type := none }
    else some { ret := 0, i_type := some i_type }

/-! ## Vocabulary of the specification -/

/-- Space, tab, LF or CR: the characters skipped at the beginning of a line. -/
abbrev isBlank (c : Nat) : Prop := c = 32 ∨ c = 9 ∨ c = 10 ∨ c = 13

/-- A line cut before its first NUL byte. -/
def cutAtNul (line : List Nat) : List Nat := line.takeWhile (fun c => decide (c ≠ 0))

/-- A line without its leading blanks. -/
def stripBlanks (s : List Nat) : List Nat := s.dropWhile (fun c => decide (isBlank c))

/-- The characters of `href`. -/
def kw_href : List Nat := [104, 114, 101, 102]

/-- The characters of `param`. -/
def kw_param : List Nat := [112, 97, 114, 97, 109]

/-- The characters of `mms://`. -/
def kw_mms : List Nat := [109, 109, 115, 58, 47, 47]

/-- The token `kw` occurs at position `i` of `s`, compared case-insensitively. -/
abbrev occursAt (kw s : List Nat) (i : Nat) : Prop :=
  ((s.drop i).take kw.length).map tolower = kw.map tolower

/-- Either `href` or `param` occurs at position `i` of `s`. -/
abbrev keywordAt (s : List Nat) (i : Nat) : Prop :=
  occursAt kw_href s i ∨ occursAt kw_param s i

/-- Position `i` is the least position at or after `lo` that satisfies `P`. -/
abbrev leastFrom (P : Nat → Prop) (lo i : Nat) : Prop :=
  lo ≤ i ∧ P i ∧ ∀ m, lo ≤ m → m < i → ¬ P m

/-- The stream cut at each end-of-line token: the lines that are terminated, in
order; `cur` is the part of the current line that precedes the stream. -/
def cutLines (eol : Nat) : List Nat → List Nat → List (List Nat)
  | _, [] => []
  | cur, b :: bs =>
    if b = eol then cur :: cutLines eol [] bs else cutLines eol (cur ++ [b]) bs

/-- Reference that the end-of-line handler extracts from a line: the handler
run on a buffer that holds the line and has room for its terminator. -/
def lineRef (i_type : Nat) (line : List Nat) : Option (List Nat) :=
  (endOfLine i_type
    { psz_line := line ++ [0], i_linepos := line.length,
      b_discard := false, playlist := [] }).state.playlist.head?

/-- The reference list of section 4.3 of the specification: the terminated
lines, without those of length 0 and those longer than the capacity, each
given to the extractor. -/
def specRefs (capacity i_type : Nat) (stream : List Nat) : List (List Nat) :=
  ((cutLines (eol_tok i_type) [] stream).filter
    (fun l => decide (0 < l.length ∧ l.length ≤ capacity))).filterMap (lineRef i_type)

/-- References forwarded for a list of terminated lines: empty and over-long
lines give nothing, and the run ends at the first line of exactly `max_line`
bytes, whose terminator does not fit in `psz_line`. -/
def refsOf (max_line i_type : Nat) : List (List Nat) → List (List Nat)
  | [] => []
  | l :: ls =>
    if l.length = 0 then refsOf max_line i_type ls
    else if l.length = max_line then []
    else if max_line < l.length then refsOf max_line i_type ls
    else (lineRef i_type l).toList ++ refsOf max_line i_type ls

/-! ## Auxiliary functions on NUL-free strings, used in the proofs -/

/-- Number of positions to advance in `s` until the rest satisfies `P` or is
empty. -/
def scanTo (P : List Nat → Bool) : List Nat → Nat
  | [] => 0
  | x :: m => if P (x :: m) then 0 else scanTo P m + 1

/-- The string starts with `href` or `param`, ignoring case. -/
def kwHere (s : List Nat) : Bool := decide (keywordAt s 0)

/-- The string starts with `mms://`, ignoring case. -/
def mmsHere (s : List Nat) : Bool := decide (occursAt kw_mms s 0)

/-- Reference of the Line-Comment variant for the string `s`. -/
def m3uRef (s : List Nat) : Option (List Nat) :=
  if (stripBlanks s).head? = some 35 then none else some (stripBlanks s)

/-- Reference of the Markup-Attribute variant for the string `s`. -/
def asxRef (s : List Nat) : Option (List Nat) :=
  let t1 := s.drop (scanTo kwHere s)
  let t2 := t1.drop (scanTo mmsHere t1)
  if 34 ∈ t2 then some (t2.takeWhile (fun c => decide (c ≠ 34))) else none

/-- Reference for the string `s` in the format `i_type`. -/
def pureRef (i_type : Nat) (s : List Nat) : Option (List Nat) :=
  if i_type = TYPE_M3U then m3uRef s else asxRef (stripBlanks s)

/-- The state of the assembler after the bytes `cur` of the current line: they
are in the buffer, or the line is already longer than `max_line` and is being
discarded. -/
def Tracks (max_line : Nat) (st : DemuxState) (cur : List Nat) : Prop :=
  st.psz_line.length = max_line ∧
    ((cur.length ≤ max_line ∧ st.i_linepos = cur.length ∧ st.b_discard = false ∧
        st.psz_line.take cur.length = cur) ∨
      (max_line < cur.length ∧ st.i_linepos = 0 ∧ st.b_discard = true))

/-- The outcome is not an out-of-bounds access. -/
def Exec.isOk : Exec → Bool
  | .ok _ => true
  | .oob _ => false

/-! ## Lemmas on the C library functions and the scanning loops -/

theorem tolower_zero_iff (c : Nat) : tolower c = 0 ↔ c = 0 := by
  unfold tolower; split <;> omega

theorem cstring_append (s rest : List Nat) (hs : 0 ∉ s) :
    cstring (s ++ 0 :: rest) = some s := by
  induction s with
  | nil => simp [cstring]
  | cons x m ih =>
    have hx : x ≠ 0 := fun h => hs (by simp [h])
    have hm : 0 ∉ m := fun h => hs (by simp [h])
    simp [cstring, hx, ih hm]

theorem skipBlanks_append (s rest : List Nat) :
    skipBlanks (s ++ 0 :: rest) =
      some (s.takeWhile (fun c => decide (isBlank c))).length := by
  induction s with
  | nil => simp [skipBlanks]
  | cons x m ih =>
    by_cases hx : x = 32 ∨ x = 9 ∨ x = 10 ∨ x = 13
    · simp [skipBlanks, hx, ih, List.takeWhile_cons]
    · simp [skipBlanks, hx, List.takeWhile_cons]

theorem strncasecmp_append (n : Nat) :
    ∀ (s kw more rest : List Nat), kw.length = n → (∀ c ∈ kw, tolower c ≠ 0) → 0 ∉ s →
      ∃ r, strncasecmp (s ++ 0 :: rest) (kw ++ more) n = some r ∧
        (r = 0 ↔ (s.take n).map tolower = kw.map tolower) := by
  induction n with
  | zero =>
    intro s kw more rest hk _ _
    have : kw = [] := List.length_eq_zero.mp hk
    subst this
    exact ⟨0, by simp [strncasecmp], by simp⟩
  | succ n ih =>
    intro s kw more rest hk hkw hs
    match kw, hk with
    | k :: kw1, hk =>
      have hk0 : tolower k ≠ 0 := hkw k (by simp)
      match s with
      | [] =>
        refine ⟨(tolower 0 : Int) - (tolower k : Int), ?_, ?_⟩
        · have : tolower 0 ≠ tolower k := by
            rw [(tolower_zero_iff 0).mpr rfl]; exact fun h => hk0 h.symm
          simp [strncasecmp, this]
        · have h0 : tolower 0 = 0 := (tolower_zero_iff 0).mpr rfl
          simp [h0]; omega
      | c :: s1 =>
        have hc : c ≠ 0 := fun h => hs (by simp [h])
        have hs1 : 0 ∉ s1 := fun h => hs (by simp [h])
        by_cases hd : tolower c = tolower k
        · obtain ⟨r, hr, hiff⟩ := ih s1 kw1 more rest (by simpa using hk)
            (fun c hc => hkw c (by simp [hc])) hs1
          refine ⟨r, ?_, ?_⟩
          · simp [strncasecmp, hd, hc, hr]
          · simp [hd, hiff]
        · refine ⟨(tolower c : Int) - (tolower k : Int), ?_, ?_⟩
          · simp [strncasecmp, hd]
          · simp [hd]; omega

theorem findKeyword_append (s rest : List Nat) (hs : 0 ∉ s) :
    findKeyword (s ++ 0 :: rest) = some (scanTo kwHere s) := by
  induction s with
  | nil => simp [findKeyword, scanTo]
  | cons x m ih =>
    have hx : x ≠ 0 := fun h => hs (by simp [h])
    have hm : 0 ∉ m := fun h => hs (by simp [h])
    obtain ⟨r1, h1, i1⟩ := strncasecmp_append 4 (x :: m) kw_href [0] rest rfl (by decide) hs
    obtain ⟨r2, h2, i2⟩ := strncasecmp_append 5 (x :: m) kw_param [0] rest rfl (by decide) hs
    have e1 : lit_href = kw_href ++ [0] := rfl
    have e2 : lit_param = kw_param ++ [0] := rfl
    have hk : kwHere (x :: m) = decide (r1 = 0 ∨ r2 = 0) := by
      unfold kwHere keywordAt occursAt
      exact decide_eq_decide.mpr (by rw [i1, i2]; exact Iff.rfl)
    show findKeyword (x :: (m ++ 0 :: rest)) = _
    rw [findKeyword, scanTo, hk]
    simp only [hx, if_false]
    rw [e1, e2]
    rw [List.cons_append] at h1 h2
    rw [h1]
    by_cases c1 : r1 = 0
    · simp [c1]
    · simp only [c1, if_false]
      rw [h2]
      by_cases c2 : r2 = 0
      · simp [c2]
      · simp [c1, c2, ih hm]

theorem findMms_append (s rest : List Nat) (hs : 0 ∉ s) :
    findMms (s ++ 0 :: rest) = some (scanTo mmsHere s) := by
  induction s with
  | nil => simp [findMms, scanTo]
  | cons x m ih =>
    have hx : x ≠ 0 := fun h => hs (by simp [h])
    have hm : 0 ∉ m := fun h => hs (by simp [h])
    obtain ⟨r1, h1, i1⟩ := strncasecmp_append 6 (x :: m) kw_mms [0] rest rfl (by decide) hs
    have e1 : lit_mms = kw_mms ++ [0] := rfl
    have hk : mmsHere (x :: m) = decide (r1 = 0) := by
      unfold mmsHere occursAt
      exact decide_eq_decide.mpr (by rw [i1]; exact Iff.rfl)
    show findMms (x :: (m ++ 0 :: rest)) = _
    rw [findMms, scanTo, hk]
    simp only [hx, if_false]
    rw [e1]
    rw [List.cons_append] at h1
    rw [h1]
    by_cases c1 : r1 = 0
    · simp [c1]
    · simp [c1, ih hm]

theorem strchr_append (s rest : List Nat) (hs : 0 ∉ s) :
    strchr (s ++ 0 :: rest) 34 =
      some (if 34 ∈ s then some (s.takeWhile (fun c => decide (c ≠ 34))).length else none) := by
  induction s with
  | nil => simp [strchr]
  | cons x m ih =>
    have hx : x ≠ 0 := fun h => hs (by simp [h])
    have hm : 0 ∉ m := fun h => hs (by simp [h])
    by_cases hq : x = 34
    · simp [strchr, hq]
    · have hq2 : ¬ (34 = x) := fun h => hq h.symm
      by_cases hmem : 34 ∈ m
      · simp [strchr, hq, hq2, hx, ih hm, hmem, List.takeWhile_cons]
      · simp [strchr, hq, hq2, hx, ih hm, hmem, List.takeWhile_cons]

theorem scanTo_le (P : List Nat → Bool) (s : List Nat) : scanTo P s ≤ s.length := by
  induction s with
  | nil => simp [scanTo]
  | cons x m ih => unfold scanTo; split <;> simp; omega

theorem drop_mid (pre t rest : List Nat) (n : Nat) (hn : n ≤ t.length) :
    (pre ++ (t ++ rest)).drop (pre.length + n) = t.drop n ++ rest := by
  rw [← List.drop_drop, List.drop_left, List.drop_append_of_le_length hn]

theorem set_mid (pre a b : List Nat) (x y : Nat) :
    (pre ++ (a ++ x :: b)).set (pre.length + a.length) y = pre ++ (a ++ y :: b) := by
  induction pre with
  | nil =>
    induction a with
    | nil => simp
    | cons z a ih => simp
  | cons z pre ih =>
    have : (z :: pre).length + a.length = (pre.length + a.length) + 1 := by simp; omega
    rw [this]; simp

theorem cutAtNul_not_mem (line : List Nat) : 0 ∉ cutAtNul line := by
  intro h
  have := List.mem_takeWhile_imp h
  simp at this

theorem nul_split (line junk : List Nat) :
    ∃ junk2, line ++ 0 :: junk = cutAtNul line ++ 0 :: junk2 ∧
      (cutAtNul line).length + junk2.length = line.length + junk.length := by
  induction line with
  | nil => exact ⟨junk, by simp [cutAtNul], by simp [cutAtNul]⟩
  | cons x m ih =>
    by_cases hx : x = 0
    · exact ⟨m ++ 0 :: junk, by simp [cutAtNul, hx], by simp [cutAtNul, hx]; omega⟩
    · obtain ⟨j, h1, h2⟩ := ih
      refine ⟨j, ?_, ?_⟩
      · simp only [cutAtNul] at h1 ⊢
        simp [List.takeWhile_cons, hx, h1]
      · simp [cutAtNul, List.takeWhile_cons, hx] at h2 ⊢
        omega

theorem buffer_split (buf line : List Nat) (h3 : line.length < buf.length)
    (h4 : buf.take line.length = line) :
    ∃ junk, buf.set line.length 0 = line ++ 0 :: junk ∧
      line.length + junk.length + 1 = buf.length := by
  have hb : buf = line ++ buf.drop line.length := by
    conv_lhs => rw [← List.take_append_drop line.length buf, h4]
  match hd : buf.drop line.length with
  | [] =>
    have := congrArg List.length hd
    simp at this; omega
  | c :: junk =>
    refine ⟨junk, ?_, ?_⟩
    · rw [hd] at hb
      have := set_mid [] line junk c 0
      simp at this
      rw [hb]; simp
    · have := congrArg List.length hd
      simp at this; omega

/-! ## The end-of-line handler on a buffered line -/

theorem takeWhile_split (t : List Nat) (h : 34 ∈ t) :
    ∃ b, t = t.takeWhile (fun c => decide (c ≠ 34)) ++ 34 :: b := by
  induction t with
  | nil => simp at h
  | cons x m ih =>
    by_cases hx : x = 34
    · exact ⟨m, by simp [List.takeWhile_cons, hx]⟩
    · have hm : 34 ∈ m := by
        rcases List.mem_cons.mp h with h1 | h1
        · exact absurd h1.symm hx
        · exact h1
      obtain ⟨b, hb⟩ := ih hm
      refine ⟨b, ?_⟩
      have e : List.takeWhile (fun c => decide (c ≠ 34)) (x :: m)
          = x :: List.takeWhile (fun c => decide (c ≠ 34)) m := by
        simp [List.takeWhile_cons, hx]
      rw [e, List.cons_append, ← hb]

theorem asxBranch_eq (st : DemuxState) (pre t rest : List Nat) (ht : 0 ∉ t)
    (hbuf : st.psz_line = pre ++ (t ++ 0 :: rest)) :
    ∃ buf, buf.length = st.psz_line.length ∧
      asxBranch st pre.length =
        .ok { st with psz_line := buf, playlist := st.playlist ++ (asxRef t).toList } := by
  have hK : findKeyword (st.psz_line.drop pre.length) = some (scanTo kwHere t) := by
    rw [hbuf, List.drop_left, findKeyword_append t rest ht]
  have hn1 := scanTo_le kwHere t
  have hD1 : st.psz_line.drop (pre.length + scanTo kwHere t)
      = t.drop (scanTo kwHere t) ++ 0 :: rest := by
    rw [hbuf, drop_mid pre t _ _ hn1]
  have ht1 : 0 ∉ t.drop (scanTo kwHere t) := fun h => ht (List.mem_of_mem_drop h)
  have hM : findMms (st.psz_line.drop (pre.length + scanTo kwHere t))
      = some (scanTo mmsHere (t.drop (scanTo kwHere t))) := by
    rw [hD1, findMms_append _ rest ht1]
  have hn2 := scanTo_le mmsHere (t.drop (scanTo kwHere t))
  have hn12 : scanTo kwHere t + scanTo mmsHere (t.drop (scanTo kwHere t)) ≤ t.length := by
    simp at hn2; omega
  have hD2 : st.psz_line.drop
      (pre.length + scanTo kwHere t + scanTo mmsHere (t.drop (scanTo kwHere t)))
      = (t.drop (scanTo kwHere t)).drop (scanTo mmsHere (t.drop (scanTo kwHere t)))
          ++ 0 :: rest := by
    rw [hbuf, Nat.add_assoc, drop_mid pre t _ _ hn12, List.drop_drop]
  have ht2 : 0 ∉ (t.drop (scanTo kwHere t)).drop (scanTo mmsHere (t.drop (scanTo kwHere t))) :=
    fun h => ht1 (List.mem_of_mem_drop h)
  have hS := strchr_append _ rest ht2
  rw [← hD2] at hS
  have hR : asxRef t =
      if 34 ∈ (t.drop (scanTo kwHere t)).drop (scanTo mmsHere (t.drop (scanTo kwHere t)))
      then some (((t.drop (scanTo kwHere t)).drop
        (scanTo mmsHere (t.drop (scanTo kwHere t)))).takeWhile (fun c => decide (c ≠ 34)))
      else none := rfl
  generalize scanTo kwHere t = n1 at *
  generalize scanTo mmsHere (t.drop n1) = n2 at *
  generalize hT2 : (t.drop n1).drop n2 = t2 at *
  unfold asxBranch
  rw [hK]; simp only []
  rw [hD1]
  match h1 : t.drop n1 with
  | [] =>
    have : t2 = [] := by rw [← hT2, h1]; simp
    subst this
    refine ⟨st.psz_line, rfl, ?_⟩
    simp [hR]
  | c1 :: t1 =>
    have hc1 : c1 ≠ 0 := fun h => ht1 (by rw [h1, h]; simp)
    simp only [List.cons_append, hc1, if_false]
    rw [← List.cons_append, ← h1, ← hD1, hM]; simp only []
    rw [hD2]
    match t2, hT2 with
    | [], _ =>
      refine ⟨st.psz_line, rfl, ?_⟩
      simp [hR]
    | c2 :: t3, hT2 =>
      have hc2 : c2 ≠ 0 := fun h => ht2 (by rw [h]; simp)
      simp only [List.cons_append, hc2, if_false]
      rw [← List.cons_append, ← hD2, hS]
      by_cases hq : 34 ∈ c2 :: t3
      · obtain ⟨b, hb⟩ := takeWhile_split _ hq
        generalize hA : List.takeWhile (fun c => decide (c ≠ 34)) (c2 :: t3) = a at *
        have ha0 : 0 ∉ a := by
          intro h; apply ht2; rw [hb]; simp [h]
        have hsplit : st.psz_line = (pre ++ t.take (n1 + n2)) ++ (a ++ 34 :: (b ++ 0 :: rest)) := by
          rw [hbuf]
          have : t = t.take (n1 + n2) ++ (a ++ 34 :: b) := by
            rw [← hb, ← hT2, List.drop_drop, List.take_append_drop]
          conv_lhs => rw [this]
          simp
        have hlen : (pre ++ t.take (n1 + n2)).length = pre.length + n1 + n2 := by
          simp; omega
        have hset := set_mid (pre ++ t.take (n1 + n2)) a (b ++ 0 :: rest) 34 0
        rw [← hsplit, hlen] at hset
        simp only [hq, if_true]
        refine ⟨st.psz_line.set (pre.length + n1 + n2 + a.length) 0, by simp, ?_⟩
        unfold playlist_Add
        simp only []
        rw [hset, ← hlen, List.drop_left, cstring_append a _ ha0]
        simp [hR, hq, hset, hlen]
      · refine ⟨st.psz_line, rfl, ?_⟩
        simp [hR, hq]

theorem endOfLine_line (i_type : Nat) (st : DemuxState) (line : List Nat)
    (h1 : st.i_linepos = line.length) (h2 : line ≠ [])
    (h3 : line.length < st.psz_line.length) (h4 : st.psz_line.take line.length = line) :
    ∃ buf, buf.length = st.psz_line.length ∧
      endOfLine i_type st = .ok
        { psz_line := buf, i_linepos := 0, b_discard := false,
          playlist := st.playlist ++ (pureRef i_type (cutAtNul line)).toList } := by
  obtain ⟨junk, hj, hjl⟩ := buffer_split st.psz_line line h3 h4
  obtain ⟨junk2, hn, hnl⟩ := nul_split line junk
  have hs0 := cutAtNul_not_mem line
  generalize cutAtNul line = s at *
  have hsp : s = s.takeWhile (fun c => decide (isBlank c)) ++ stripBlanks s :=
    (List.takeWhile_append_dropWhile _ s).symm
  have ht0 : 0 ∉ stripBlanks s := fun h => hs0 (by rw [hsp]; simp [h])
  have hsk := skipBlanks_append s junk2
  have hmem : st.psz_line.set line.length 0
      = s.takeWhile (fun c => decide (isBlank c)) ++ (stripBlanks s ++ 0 :: junk2) := by
    rw [hj, hn]; conv_lhs => rw [hsp]
    simp
  rw [← hn, ← hj] at hsk
  have hpos : line.length ≠ 0 := by
    intro h; exact h2 (List.length_eq_zero.mp h)
  have hlen : (st.psz_line.set line.length 0).length = st.psz_line.length := by simp
  generalize hpre : s.takeWhile (fun c => decide (isBlank c)) = pre at *
  generalize hbuf : st.psz_line.set line.length 0 = mem at *
  unfold endOfLine
  simp only [h1, hpos, if_false, h3, if_true, hbuf, hsk]
  by_cases hty : i_type = TYPE_M3U
  · simp only [hty, if_true]
    refine ⟨mem, hlen, ?_⟩
    rw [hmem, List.drop_left]
    match ht : stripBlanks s with
    | [] =>
      simp only [List.nil_append]
      have : (0 : Nat) ≠ 35 := by decide
      simp only [this, if_false]
      unfold playlist_Add
      simp [cstring, pureRef, m3uRef, ht]
    | c :: t =>
      by_cases hc : c = 35
      · simp [hc, pureRef, m3uRef, ht]
      · simp only [List.cons_append, hc, if_false]
        unfold playlist_Add
        rw [ht] at ht0
        have hcs := cstring_append (c :: t) junk2 ht0
        rw [List.cons_append] at hcs
        simp [hcs, pureRef, m3uRef, ht, hc]
  · simp only [hty, if_false]
    obtain ⟨buf, hb1, hb2⟩ := asxBranch_eq
      { psz_line := mem, i_linepos := 0, b_discard := false, playlist := st.playlist }
      pre (stripBlanks s) junk2 ht0 hmem
    refine ⟨buf, by rw [hb1]; exact hlen, ?_⟩
    rw [hb2]
    simp [pureRef, hty]

/-! ## The assembler follows the lines of the stream -/

theorem lineRef_nil (i_type : Nat) : lineRef i_type [] = none := by
  simp [lineRef, endOfLine, Exec.state]

theorem lineRef_eq (i_type : Nat) (line : List Nat) (h : line ≠ []) :
    lineRef i_type line = pureRef i_type (cutAtNul line) := by
  obtain ⟨buf, _, hb⟩ := endOfLine_line i_type
    { psz_line := line ++ [0], i_linepos := line.length, b_discard := false, playlist := [] }
    line rfl h (by simp) (by simp)
  unfold lineRef
  rw [hb]
  cases pureRef i_type (cutAtNul line) <;> simp [Exec.state]

theorem storeByte_tracks (max_line : Nat) (st : DemuxState) (cur : List Nat) (b : Nat)
    (h : Tracks max_line st cur) :
    ∃ st1, storeByte max_line st b = .ok st1 ∧ Tracks max_line st1 (cur ++ [b]) ∧
      st1.playlist = st.playlist := by
  obtain ⟨hl, h | h⟩ := h
  · obtain ⟨h1, h2, h3, h4⟩ := h
    by_cases hc : cur.length = max_line
    · refine ⟨{ st with i_linepos := 0, b_discard := true }, ?_, ?_, rfl⟩
      · simp [storeByte, h2, hc]
      · exact ⟨hl, Or.inr ⟨by simp; omega, rfl, rfl⟩⟩
    · have hlt : cur.length < st.psz_line.length := by omega
      refine ⟨{ st with psz_line := st.psz_line.set st.i_linepos b,
                        i_linepos := st.i_linepos + 1 }, ?_, ?_, rfl⟩
      · simp [storeByte, h2, hc, h3, hlt]
      · refine ⟨by simp [hl], Or.inl ⟨by simp; omega, by simp [h2], h3, ?_⟩⟩
        have hb : st.psz_line = cur ++ st.psz_line.drop cur.length := by
          conv_lhs => rw [← List.take_append_drop cur.length st.psz_line, h4]
        match hd : st.psz_line.drop cur.length with
        | [] =>
          have := congrArg List.length hd
          simp at this; omega
        | c :: junk =>
          rw [hd] at hb
          have hs := set_mid [] cur junk c b
          simp only [List.nil_append, List.length_nil, Nat.zero_add] at hs
          show List.take (cur ++ [b]).length (st.psz_line.set st.i_linepos b) = cur ++ [b]
          rw [h2, hb, hs]
          have : cur ++ b :: junk = (cur ++ [b]) ++ junk := by simp
          rw [this, List.take_left]
  · obtain ⟨h1, h2, h3⟩ := h
    refine ⟨{ st with i_linepos := 0, b_discard := true }, ?_, ?_, rfl⟩
    · simp [storeByte, h3]
    · exact ⟨hl, Or.inr ⟨by simp; omega, rfl, rfl⟩⟩

theorem endOfLine_skip (max_line i_type : Nat) (st : DemuxState) (cur : List Nat)
    (h : Tracks max_line st cur) (hc : cur = [] ∨ max_line < cur.length) :
    ∃ st1, endOfLine i_type st = .ok st1 ∧ Tracks max_line st1 [] ∧
      st1.playlist = st.playlist := by
  have h0 : st.i_linepos = 0 := by
    obtain ⟨_, h | h⟩ := h
    · rcases hc with hc | hc
      · rw [h.2.1, hc]; rfl
      · omega
    · exact h.2.1
  refine ⟨{ st with b_discard := false }, ?_, ?_, rfl⟩
  · simp [endOfLine, h0]
  · exact ⟨h.1, Or.inl ⟨by simp, h0, rfl, by simp⟩⟩

theorem endOfLine_full (max_line i_type : Nat) (st : DemuxState) (cur : List Nat)
    (h : Tracks max_line st cur) (hne : cur ≠ []) (hc : cur.length = max_line) :
    ∃ st1, endOfLine i_type st = .oob st1 ∧ st1.playlist = st.playlist := by
  have hpos : cur.length ≠ 0 := fun h => hne (List.length_eq_zero.mp h)
  obtain ⟨hl, h | h⟩ := h
  · refine ⟨{ st with b_discard := false }, ?_, rfl⟩
    have hm : max_line ≠ 0 := by omega
    simp [endOfLine, h.2.1, hl, hc, hm]
  · omega

theorem endOfLine_keep (max_line i_type : Nat) (st : DemuxState) (cur : List Nat)
    (h : Tracks max_line st cur) (hne : cur ≠ []) (hc : cur.length < max_line) :
    ∃ st1, endOfLine i_type st = .ok st1 ∧ Tracks max_line st1 [] ∧
      st1.playlist = st.playlist ++ (lineRef i_type cur).toList := by
  obtain ⟨hl, h | h⟩ := h
  · obtain ⟨buf, hb1, hb2⟩ := endOfLine_line i_type st cur h.2.1 hne (by omega) h.2.2.2
    refine ⟨_, hb2, ⟨by simp [hb1, hl], Or.inl ⟨by simp, rfl, rfl, by simp⟩⟩, ?_⟩
    simp [lineRef_eq i_type cur hne]
  · omega

theorem demuxPacket_sim (max_line i_type : Nat) :
    ∀ (bs cur : List Nat) (st : DemuxState), Tracks max_line st cur →
      (demuxPacket max_line i_type st bs).state.playlist =
          st.playlist ++ refsOf max_line i_type (cutLines (eol_tok i_type) cur bs) ∧
      ((demuxPacket max_line i_type st bs).isOk = true ↔
          ∀ l ∈ cutLines (eol_tok i_type) cur bs, l ≠ [] → l.length ≠ max_line) := by
  intro bs
  induction bs with
  | nil =>
    intro cur st _
    simp [demuxPacket, cutLines, refsOf, Exec.state, Exec.isOk]
  | cons b bs ih =>
    intro cur st h
    by_cases hb : b = eol_tok i_type
    · have e1 : demuxPacket max_line i_type st (b :: bs) =
          (endOfLine i_type st).andThen (fun st1 => demuxPacket max_line i_type st1 bs) := by
        simp [demuxPacket, demuxByte, hb]
      have e2 : cutLines (eol_tok i_type) cur (b :: bs) =
          cur :: cutLines (eol_tok i_type) [] bs := by
        simp [cutLines, hb]
      rw [e1, e2]
      by_cases hs : cur = [] ∨ max_line < cur.length
      · obtain ⟨st1, hr, ht, hp⟩ := endOfLine_skip max_line i_type st cur h hs
        obtain ⟨i1, i2⟩ := ih [] st1 ht
        have hrefs : refsOf max_line i_type (cur :: cutLines (eol_tok i_type) [] bs) =
            refsOf max_line i_type (cutLines (eol_tok i_type) [] bs) := by
          rcases hs with hs | hs
          · simp [refsOf, hs]
          · have h1 : cur.length ≠ 0 := by omega
            have h2 : cur.length ≠ max_line := by omega
            simp [refsOf, h1, h2, hs]
        rw [hr, hrefs]
        simp only [Exec.andThen]
        refine ⟨by rw [i1, hp], ?_⟩
        rw [i2]
        constructor
        · intro hh l hl
          rcases List.mem_cons.mp hl with hl | hl
          · intro hne; rcases hs with hs | hs
            · exact absurd (hl.trans hs) hne
            · rw [hl]; omega
          · exact hh l hl
        · intro hh l hl
          exact hh l (List.mem_cons_of_mem _ hl)
      · have hne : cur ≠ [] := fun hh => hs (Or.inl hh)
        have hle : cur.length ≤ max_line := by
          by_contra hh; exact hs (Or.inr (by omega))
        have hpos : cur.length ≠ 0 := fun hh => hne (List.length_eq_zero.mp hh)
        by_cases hfull : cur.length = max_line
        · obtain ⟨st1, hr, hp⟩ := endOfLine_full max_line i_type st cur h hne hfull
          rw [hr]
          simp only [Exec.andThen, Exec.state, Exec.isOk]
          have hm : max_line ≠ 0 := by omega
          refine ⟨by simp [refsOf, hfull, hp, hm], ?_⟩
          constructor
          · intro hh; exact absurd hh (by simp)
          · intro hh
            exact absurd hfull (hh cur (List.mem_cons_self _ _) hne)
        · have hlt : cur.length < max_line := by omega
          obtain ⟨st1, hr, ht, hp⟩ := endOfLine_keep max_line i_type st cur h hne hlt
          obtain ⟨i1, i2⟩ := ih [] st1 ht
          have hnl : ¬ max_line < cur.length := by omega
          rw [hr]
          simp only [Exec.andThen]
          refine ⟨by rw [i1, hp]; simp [refsOf, hpos, hfull, hnl], ?_⟩
          rw [i2]
          constructor
          · intro hh l hl
            rcases List.mem_cons.mp hl with hl | hl
            · intro _; rw [hl]; exact hfull
            · exact hh l hl
          · intro hh l hl
            exact hh l (List.mem_cons_of_mem _ hl)
    · have e1 : demuxPacket max_line i_type st (b :: bs) =
          (storeByte max_line st b).andThen (fun st1 => demuxPacket max_line i_type st1 bs) := by
        simp [demuxPacket, demuxByte, hb]
      have e2 : cutLines (eol_tok i_type) cur (b :: bs) =
          cutLines (eol_tok i_type) (cur ++ [b]) bs := by
        simp [cutLines, hb]
      obtain ⟨st1, hr, ht, hp⟩ := storeByte_tracks max_line st cur b h
      obtain ⟨i1, i2⟩ := ih (cur ++ [b]) st1 ht
      rw [e1, e2, hr]
      simp only [Exec.andThen]
      exact ⟨by rw [i1, hp], i2⟩

theorem andThen_assoc (r : Exec) (f g : DemuxState → Exec) :
    (r.andThen f).andThen g = r.andThen (fun st => (f st).andThen g) := by
  cases r <;> rfl

theorem demuxPacket_append (max_line i_type : Nat) :
    ∀ (xs ys : List Nat) (st : DemuxState),
      demuxPacket max_line i_type st (xs ++ ys) =
        (demuxPacket max_line i_type st xs).andThen
          (fun st1 => demuxPacket max_line i_type st1 ys) := by
  intro xs
  induction xs with
  | nil => intro ys st; rfl
  | cons x xs ih =>
    intro ys st
    simp only [List.cons_append, demuxPacket, andThen_assoc]
    congr 1
    funext st1
    exact ih ys st1

theorem demuxLoop_join (max_line i_type : Nat) :
    ∀ (packets : List (List Nat)) (st : DemuxState), (∀ p ∈ packets, p ≠ []) →
      demuxLoop max_line i_type st packets = demuxPacket max_line i_type st packets.flatten := by
  intro packets
  induction packets with
  | nil => intro st _; rfl
  | cons p more ih =>
    intro st h
    have hp : 0 < p.length := List.length_pos.mpr (h p (List.mem_cons_self _ _))
    simp only [demuxLoop, hp, if_true, List.flatten_cons, demuxPacket_append]
    congr 1
    funext st1
    exact ih st1 (fun q hq => h q (List.mem_cons_of_mem _ hq))


/-! ## `Demux` on a whole stream -/

theorem andThen_ok (r : Exec) : r.andThen (fun st => Exec.ok st) = r := by
  cases r <;> rfl

theorem initState_tracks (max_line : Nat) (garbage : Nat → Nat) :
    Tracks max_line (initState max_line garbage) [] :=
  ⟨by simp [initState], Or.inl ⟨by simp, rfl, rfl, by simp⟩⟩

theorem Demux_eq_packet (max_line i_type : Nat) (garbage : Nat → Nat)
    (packets : List (List Nat)) (failed : Bool) (h : ∀ p ∈ packets, p ≠ []) :
    Demux max_line i_type garbage true ⟨packets, failed⟩ =
      match demuxPacket max_line i_type (initState max_line garbage) packets.flatten with
      | .ok st => .ret 0 st
      | .oob st => .undefined st := by
  unfold Demux
  rw [demuxLoop_join max_line i_type packets _ h]
  rfl

theorem Demux_sink (max_line i_type : Nat) (garbage : Nat → Nat)
    (packets : List (List Nat)) (failed : Bool) (h : ∀ p ∈ packets, p ≠ []) :
    (Demux max_line i_type garbage true ⟨packets, failed⟩).sink =
      refsOf max_line i_type (cutLines (eol_tok i_type) [] packets.flatten) := by
  have hs := (demuxPacket_sim max_line i_type packets.flatten []
    (initState max_line garbage) (initState_tracks max_line garbage)).1
  rw [Demux_eq_packet max_line i_type garbage packets failed h]
  cases hd : demuxPacket max_line i_type (initState max_line garbage) packets.flatten <;>
    rw [hd] at hs <;>
    simpa [Exec.state, Result.sink, Result.state, initState] using hs

theorem Demux_returns_iff (max_line i_type : Nat) (garbage : Nat → Nat)
    (packets : List (List Nat)) (failed : Bool) (h : ∀ p ∈ packets, p ≠ []) :
    (∃ st, Demux max_line i_type garbage true ⟨packets, failed⟩ = .ret 0 st) ↔
      ∀ l ∈ cutLines (eol_tok i_type) [] packets.flatten, l ≠ [] → l.length ≠ max_line := by
  have hs := (demuxPacket_sim max_line i_type packets.flatten []
    (initState max_line garbage) (initState_tracks max_line garbage)).2
  rw [Demux_eq_packet max_line i_type garbage packets failed h, ← hs]
  cases hd : demuxPacket max_line i_type (initState max_line garbage) packets.flatten <;>
    simp [Exec.isOk]

theorem cutLines_run (eol : Nat) (run : List Nat) (h : ∀ b ∈ run, b ≠ eol) :
    ∀ (cur rest : List Nat),
      cutLines eol cur (run ++ eol :: rest) = (cur ++ run) :: cutLines eol [] rest := by
  induction run with
  | nil => intro cur rest; simp [cutLines]
  | cons b bs ih =>
    intro cur rest
    have hb : b ≠ eol := h b (List.mem_cons_self _ _)
    show cutLines eol cur (b :: (bs ++ eol :: rest)) = _
    rw [cutLines]
    simp only [hb, if_false]
    rw [ih (fun c hc => h c (List.mem_cons_of_mem _ hc))]
    simp

theorem cutLines_no_eol (eol : Nat) :
    ∀ (bs cur : List Nat), (∀ b ∈ cur, b ≠ eol) → ∀ l ∈ cutLines eol cur bs, eol ∉ l := by
  intro bs
  induction bs with
  | nil => intro cur _ l hl; simp [cutLines] at hl
  | cons b bs ih =>
    intro cur hc l hl
    by_cases hb : b = eol
    · simp only [cutLines, hb, if_true] at hl
      rcases List.mem_cons.mp hl with hl | hl
      · rw [hl]; exact fun hm => hc eol hm rfl
      · exact ih [] (by simp) l hl
    · simp only [cutLines, hb, if_false] at hl
      refine ih (cur ++ [b]) ?_ l hl
      intro c hcm
      rcases List.mem_append.mp hcm with hcm | hcm
      · exact hc c hcm
      · simp at hcm; rw [hcm]; exact hb

theorem refsOf_eq_filterMap (max_line i_type : Nat) :
    ∀ (ls : List (List Nat)), (∀ l ∈ ls, l ≠ [] → l.length ≠ max_line) →
      refsOf max_line i_type ls =
        (ls.filter (fun l => decide (0 < l.length ∧ l.length ≤ max_line))).filterMap
          (lineRef i_type) := by
  intro ls
  induction ls with
  | nil => intro _; rfl
  | cons l ls ih =>
    intro h
    have ih1 := ih (fun m hm => h m (List.mem_cons_of_mem _ hm))
    by_cases h0 : l.length = 0
    · simp [refsOf, h0, ih1, List.filter_cons]
    · have hne : l ≠ [] := fun hh => h0 (by rw [hh]; rfl)
      have hf := h l (List.mem_cons_self _ _) hne
      by_cases hgt : max_line < l.length
      · have : ¬ (0 < l.length ∧ l.length ≤ max_line) := by omega
        simp [refsOf, h0, hf, hgt, ih1, List.filter_cons, this]
      · have : (0 < l.length ∧ l.length ≤ max_line) := by omega
        have hfc : (l :: ls).filter (fun l => decide (0 < l.length ∧ l.length ≤ max_line)) =
            l :: ls.filter (fun l => decide (0 < l.length ∧ l.length ≤ max_line)) := by
          rw [List.filter_cons]; simp only [this, and_self, decide_True, if_true]
        rw [hfc]
        simp only [refsOf, h0, hf, hgt, ih1, if_false, List.filterMap_cons]
        cases lineRef i_type l <;> simp

theorem refsOf_sublist (max_line i_type : Nat) :
    ∀ (ls : List (List Nat)), ∃ kept : List (List Nat), kept.Sublist (ls.filter (fun l => decide (l ≠ []))) ∧
      refsOf max_line i_type ls = kept.filterMap (lineRef i_type) := by
  intro ls
  induction ls with
  | nil => exact ⟨[], by simp, rfl⟩
  | cons l ls ih =>
    obtain ⟨kept, hk1, hk2⟩ := ih
    by_cases h0 : l.length = 0
    · have hl : l = [] := List.length_eq_zero.mp h0
      exact ⟨kept, by simpa [List.filter_cons, hl] using hk1, by simp [refsOf, h0, hk2]⟩
    · have hne : l ≠ [] := fun hh => h0 (by rw [hh]; rfl)
      have hfil : (l :: ls).filter (fun l => decide (l ≠ [])) =
          l :: ls.filter (fun l => decide (l ≠ [])) := by
        simp [List.filter_cons, hne]
      by_cases hf : l.length = max_line
      · have hm : max_line ≠ 0 := by omega
        exact ⟨[], by simp, by simp [refsOf, hf, hm]⟩
      · by_cases hgt : max_line < l.length
        · refine ⟨kept, ?_, by simp [refsOf, h0, hf, hgt, hk2]⟩
          rw [hfil]; exact List.Sublist.cons _ hk1
        · refine ⟨l :: kept, ?_, ?_⟩
          · rw [hfil]; exact List.Sublist.cons₂ _ hk1
          · simp only [refsOf, h0, hf, hgt, if_false, hk2, List.filterMap_cons]
            cases lineRef i_type l <;> simp

theorem filterMap_length_le (f : List Nat → Option (List Nat)) (ls : List (List Nat)) :
    (ls.filterMap f).length ≤ ls.length := by
  induction ls with
  | nil => simp
  | cons l ls ih =>
    simp only [List.filterMap_cons]
    cases f l <;> simp <;> omega

/-! ## Chunking invariance, and the line of exactly `MAX_LINE` bytes -/

theorem demuxLoop_single (max_line i_type : Nat) (st : DemuxState) (p : List Nat) :
    demuxLoop max_line i_type st [p] = demuxPacket max_line i_type st p := by
  cases p with
  | nil => rfl
  | cons b bs =>
    have : demuxLoop max_line i_type st [b :: bs] =
        (demuxPacket max_line i_type st (b :: bs)).andThen (fun st1 => Exec.ok st1) := by
      simp [demuxLoop]
    rw [this, andThen_ok]

theorem Demux_cases (max_line i_type : Nat) (garbage : Nat → Nat) (src : Source) :
    (∃ st, Demux max_line i_type garbage true src = .ret 0 st) ∨
      (∃ st, Demux max_line i_type garbage true src = .undefined st) := by
  unfold Demux
  cases demuxLoop max_line i_type (initState max_line garbage) src.packets with
  | ok st => exact Or.inl ⟨st, rfl⟩
  | oob st => exact Or.inr ⟨st, rfl⟩

theorem cutAtNul_of_not_mem (l : List Nat) (h : 0 ∉ l) : cutAtNul l = l := by
  unfold cutAtNul
  rw [List.takeWhile_eq_self_iff]
  intro c hc
  have : c ≠ 0 := fun h0 => h (h0 ▸ hc)
  simp [this]

theorem replicate_ne_nil (n c : Nat) (h : 0 < n) : List.replicate n c ≠ [] := by
  intro hh
  have := congrArg List.length hh
  rw [List.length_replicate] at this
  simp at this
  omega

theorem lineRef_replicate (n : Nat) :
    lineRef TYPE_M3U (List.replicate (n + 1) 97) = some (List.replicate (n + 1) 97) := by
  rw [lineRef_eq _ _ (replicate_ne_nil _ _ (Nat.succ_pos n))]
  rw [cutAtNul_of_not_mem _ (by intro h; have := List.eq_of_mem_replicate h; omega)]
  rw [List.replicate_succ]
  simp [pureRef, m3uRef, stripBlanks, List.dropWhile_cons]

/-- C2. Chunking invariance: for non-empty packets, `Demux` on the packets and
`Demux` on their concatenation delivered as one packet give the same result:
the same return value, the same references in the same order, and the same
final `i_linepos`, `b_discard` and buffer contents (and they reach an
out-of-bounds access together). -/
theorem Demux_chunking_invariant (max_line i_type : Nat) (garbage : Nat → Nat)
    (found : Bool) (packets : List (List Nat)) (failed : Bool)
    (h : ∀ p ∈ packets, p ≠ []) :
    Demux max_line i_type garbage found ⟨packets, failed⟩ =
      Demux max_line i_type garbage found ⟨[packets.flatten], failed⟩ := by
  unfold Demux
  simp only [demuxLoop_single, demuxLoop_join max_line i_type packets _ h]

/-- Witness of `Demux_chunking_invariant`: the packets `#EXT`, `M3U\nso`,
`ng1.mp3\n`, which give the single reference `song1.mp3`. -/
theorem Demux_chunking_invariant_witness :
    (∀ p ∈ [[35, 69, 88, 84], [77, 51, 85, 10, 115, 111],
        [110, 103, 49, 46, 109, 112, 51, 10]], p ≠ ([] : List Nat)) ∧
      Demux MAX_LINE TYPE_M3U (fun _ => 0) true
          ⟨[[35, 69, 88, 84], [77, 51, 85, 10, 115, 111],
            [110, 103, 49, 46, 109, 112, 51, 10]], false⟩ =
        Demux MAX_LINE TYPE_M3U (fun _ => 0) true
          ⟨[[[35, 69, 88, 84], [77, 51, 85, 10, 115, 111],
            [110, 103, 49, 46, 109, 112, 51, 10]].flatten], false⟩ ∧
      (Demux MAX_LINE TYPE_M3U (fun _ => 0) true
          ⟨[[35, 69, 88, 84], [77, 51, 85, 10, 115, 111],
            [110, 103, 49, 46, 109, 112, 51, 10]], false⟩).sink =
        [[115, 111, 110, 103, 49, 46, 109, 112, 51]] :=
  ⟨by decide, Demux_chunking_invariant _ _ _ _ _ _ (by decide),
    by rw [Demux_sink _ _ _ _ _ (by decide)]; decide⟩

theorem cutLines_single (eol : Nat) (line : List Nat) (h : ∀ b ∈ line, b ≠ eol) :
    cutLines eol [] ([line, [eol]].flatten) = [line] := by
  have hflat : [line, [eol]].flatten = line ++ eol :: [] := by simp
  rw [hflat, cutLines_run eol line h [] []]
  simp [cutLines]

theorem Demux_exact_line_undefined (max_line i_type : Nat) (garbage : Nat → Nat) (line : List Nat)
    (hl : line.length = max_line) (hne : line ≠ [])
    (heol : ∀ b ∈ line, b ≠ eol_tok i_type) :
    ∃ st, Demux max_line i_type garbage true ⟨[line, [eol_tok i_type]], false⟩ =
      .undefined st ∧ st.playlist = [] := by
  have hp : ∀ p ∈ [line, [eol_tok i_type]], p ≠ ([] : List Nat) := by
    intro p hp
    rcases List.mem_cons.mp hp with hp | hp
    · rw [hp]; exact hne
    · rw [List.mem_singleton.mp hp]; simp
  have hcut := cutLines_single (eol_tok i_type) line heol
  have h0 : line.length ≠ 0 := fun h => hne (List.length_eq_zero.mp h)
  rcases Demux_cases max_line i_type garbage ⟨[line, [eol_tok i_type]], false⟩ with
    ⟨st, hst⟩ | ⟨st, hst⟩
  · have := (Demux_returns_iff max_line i_type garbage _ false hp).mp ⟨st, hst⟩
    rw [hcut] at this
    exact absurd hl (this _ (List.mem_singleton_self _) hne)
  · refine ⟨st, hst, ?_⟩
    have hs := Demux_sink max_line i_type garbage _ false hp
    rw [hcut, hst] at hs
    simpa [Result.sink, Result.state, refsOf, h0, hl] using hs

/-- C1 (failing input). A line of exactly `MAX_LINE` bytes `a` followed by a
newline, in M3U format: the specification's reference list is the line itself,
while `Demux` writes the terminator at `psz_line[MAX_LINE]`, outside the array,
having forwarded nothing. -/
theorem Demux_line_of_MAX_LINE_bytes (garbage : Nat → Nat) :
    (∃ st, Demux MAX_LINE TYPE_M3U garbage true
        ⟨[List.replicate MAX_LINE 97, [10]], false⟩ = .undefined st ∧ st.playlist = []) ∧
      specRefs MAX_LINE TYPE_M3U ([List.replicate MAX_LINE 97, [10]].flatten) =
        [List.replicate MAX_LINE 97] := by
  have hrun : ∀ b ∈ List.replicate MAX_LINE 97, b ≠ eol_tok TYPE_M3U := by
    intro b hb; rw [List.eq_of_mem_replicate hb]; decide
  have hpos : 0 < MAX_LINE := by unfold MAX_LINE; omega
  constructor
  · exact Demux_exact_line_undefined MAX_LINE TYPE_M3U garbage _ (List.length_replicate _ _)
      (replicate_ne_nil _ _ hpos) hrun
  · unfold specRefs
    rw [show ([10] : List Nat) = [eol_tok TYPE_M3U] from rfl, cutLines_single _ _ hrun]
    have hc : (0 < (List.replicate MAX_LINE 97).length ∧
        (List.replicate MAX_LINE 97).length ≤ MAX_LINE) := by
      rw [List.length_replicate]; exact ⟨hpos, Nat.le_refl _⟩
    rw [List.filter_cons]
    simp only [hc, and_self, decide_True, if_true, List.filter_nil,
      List.filterMap_cons, List.filterMap_nil]
    rw [show MAX_LINE = 1023 + 1 from rfl, lineRef_replicate 1023]

/-! ## Invariant of the assembler state, and the number of references -/

theorem playlist_Add_fields (st : DemuxState) (bol : Nat) :
    (playlist_Add st bol).state.i_linepos = st.i_linepos ∧
      (playlist_Add st bol).state.b_discard = st.b_discard := by
  unfold playlist_Add
  split <;> simp [Exec.state]

theorem asxBranch_fields (st : DemuxState) (bol : Nat) :
    (asxBranch st bol).state.i_linepos = st.i_linepos ∧
      (asxBranch st bol).state.b_discard = st.b_discard := by
  unfold asxBranch
  split
  · simp [Exec.state]
  · split
    · simp [Exec.state]
    · split
      · simp [Exec.state]
      · split
        · simp [Exec.state]
        · split
          · simp [Exec.state]
          · split
            · simp [Exec.state]
            · split
              · simp [Exec.state]
              · simp [Exec.state]
              · exact playlist_Add_fields _ _

theorem endOfLine_fields (i_type : Nat) (st : DemuxState) :
    (endOfLine i_type st).state.i_linepos ≤ st.i_linepos ∧
      (endOfLine i_type st).state.b_discard = false := by
  unfold endOfLine
  simp only []
  split
  · simp [Exec.state]
  · split
    · split
      · simp [Exec.state]
      · split
        · split
          · simp [Exec.state]
          · split
            · simp [Exec.state]
            · exact ⟨le_of_eq_of_le (playlist_Add_fields _ _).1 (Nat.zero_le _),
                (playlist_Add_fields _ _).2⟩
        · exact ⟨le_of_eq_of_le (asxBranch_fields _ _).1 (Nat.zero_le _),
            (asxBranch_fields _ _).2⟩
    · simp [Exec.state]

theorem storeByte_fields (max_line : Nat) (st : DemuxState) (b : Nat)
    (h : st.i_linepos ≤ max_line ∧ (st.b_discard = true → st.i_linepos = 0)) :
    (storeByte max_line st b).state.i_linepos ≤ max_line ∧
      ((storeByte max_line st b).state.b_discard = true →
        (storeByte max_line st b).state.i_linepos = 0) := by
  unfold storeByte
  split
  · simp [Exec.state]
  · rename_i h1
    simp only [not_or] at h1
    split
    · simp only [Exec.state]
      exact ⟨by omega, fun hd => absurd hd h1.2⟩
    · exact h

theorem demuxByte_fields (max_line i_type : Nat) (st : DemuxState) (b : Nat)
    (h : st.i_linepos ≤ max_line ∧ (st.b_discard = true → st.i_linepos = 0)) :
    (demuxByte max_line i_type st b).state.i_linepos ≤ max_line ∧
      ((demuxByte max_line i_type st b).state.b_discard = true →
        (demuxByte max_line i_type st b).state.i_linepos = 0) := by
  unfold demuxByte
  split
  · exact storeByte_fields max_line st b h
  · have := endOfLine_fields i_type st
    exact ⟨by omega, fun hd => by rw [this.2] at hd; exact absurd hd (by simp)⟩

theorem demuxPacket_fields (max_line i_type : Nat) :
    ∀ (bs : List Nat) (st : DemuxState),
      (st.i_linepos ≤ max_line ∧ (st.b_discard = true → st.i_linepos = 0)) →
      (demuxPacket max_line i_type st bs).state.i_linepos ≤ max_line ∧
        ((demuxPacket max_line i_type st bs).state.b_discard = true →
          (demuxPacket max_line i_type st bs).state.i_linepos = 0) := by
  intro bs
  induction bs with
  | nil => intro st h; exact h
  | cons b bs ih =>
    intro st h
    have hb := demuxByte_fields max_line i_type st b h
    unfold demuxPacket
    cases hd : demuxByte max_line i_type st b with
    | ok st1 => rw [hd] at hb; exact ih st1 hb
    | oob st1 => rw [hd] at hb; exact hb

theorem demuxLoop_fields (max_line i_type : Nat) :
    ∀ (packets : List (List Nat)) (st : DemuxState),
      (st.i_linepos ≤ max_line ∧ (st.b_discard = true → st.i_linepos = 0)) →
      (demuxLoop max_line i_type st packets).state.i_linepos ≤ max_line ∧
        ((demuxLoop max_line i_type st packets).state.b_discard = true →
          (demuxLoop max_line i_type st packets).state.i_linepos = 0) := by
  intro packets
  induction packets with
  | nil => intro st h; exact h
  | cons p more ih =>
    intro st h
    have hp := demuxPacket_fields max_line i_type p st h
    unfold demuxLoop
    split
    · cases hd : demuxPacket max_line i_type st p with
      | ok st1 => rw [hd] at hp; exact ih st1 hp
      | oob st1 => rw [hd] at hp; exact hp
    · exact h

/-- C7. LineBuffer invariant: in the state in which `Demux` ends on any source
(so, as every prefix of a packet sequence is a packet sequence, after every
byte of every sequence of packets), `i_linepos <= MAX_LINE`, and
`b_discard` true implies `i_linepos = 0`. -/
theorem Demux_linepos_invariant (max_line i_type : Nat) (garbage : Nat → Nat)
    (found : Bool) (src : Source) :
    (Demux max_line i_type garbage found src).state.i_linepos ≤ max_line ∧
      ((Demux max_line i_type garbage found src).state.b_discard = true →
        (Demux max_line i_type garbage found src).state.i_linepos = 0) := by
  have h0 : (initState max_line garbage).i_linepos ≤ max_line ∧
      ((initState max_line garbage).b_discard = true →
        (initState max_line garbage).i_linepos = 0) := by
    simp [initState]
  have hl := demuxLoop_fields max_line i_type src.packets _ h0
  unfold Demux
  split
  · exact h0
  · cases hd : demuxLoop max_line i_type (initState max_line garbage) src.packets with
    | ok st => rw [hd] at hl; exact hl
    | oob st => rw [hd] at hl; exact hl

/-- C10. The references forwarded by `Demux` are the extraction results of a
sublist of the non-empty terminated lines of the concatenated stream, each line
giving at most one reference; hence their number is at most the number of such
lines. -/
theorem Demux_references_le_lines (max_line i_type : Nat) (garbage : Nat → Nat)
    (found : Bool) (packets : List (List Nat)) (failed : Bool)
    (h : ∀ p ∈ packets, p ≠ []) :
    (∃ kept : List (List Nat),
        kept.Sublist ((cutLines (eol_tok i_type) [] packets.flatten).filter
          (fun l => decide (l ≠ []))) ∧
        (Demux max_line i_type garbage found ⟨packets, failed⟩).sink =
          kept.filterMap (lineRef i_type)) ∧
      (Demux max_line i_type garbage found ⟨packets, failed⟩).sink.length ≤
        ((cutLines (eol_tok i_type) [] packets.flatten).filter
          (fun l => decide (l ≠ []))).length := by
  have key : ∃ kept : List (List Nat),
      kept.Sublist ((cutLines (eol_tok i_type) [] packets.flatten).filter
        (fun l => decide (l ≠ []))) ∧
      (Demux max_line i_type garbage found ⟨packets, failed⟩).sink =
        kept.filterMap (lineRef i_type) := by
    cases found with
    | false => exact ⟨[], by simp, by simp [Demux, Result.sink, Result.state, initState]⟩
    | true =>
      obtain ⟨kept, hk1, hk2⟩ := refsOf_sublist max_line i_type
        (cutLines (eol_tok i_type) [] packets.flatten)
      exact ⟨kept, hk1, by rw [Demux_sink max_line i_type garbage packets failed h, hk2]⟩
  refine ⟨key, ?_⟩
  obtain ⟨kept, hk1, hk2⟩ := key
  rw [hk2]
  exact Nat.le_trans (filterMap_length_le _ _) hk1.length_le

/-- Witness of `Demux_references_le_lines`: `#EXTM3U\nsong1.mp3\n\n` followed by
`song2.mp3\n`. -/
theorem Demux_references_le_lines_witness :
    (∀ p ∈ [[35, 69, 88, 84, 77, 51, 85, 10, 115, 111, 110, 103, 49, 46, 109, 112, 51, 10, 10],
        [115, 111, 110, 103, 50, 46, 109, 112, 51, 10]], p ≠ ([] : List Nat)) ∧
      (Demux MAX_LINE TYPE_M3U (fun _ => 0) true
        ⟨[[35, 69, 88, 84, 77, 51, 85, 10, 115, 111, 110, 103, 49, 46, 109, 112, 51, 10, 10],
          [115, 111, 110, 103, 50, 46, 109, 112, 51, 10]], false⟩).sink.length ≤
        ((cutLines (eol_tok TYPE_M3U) []
          [[35, 69, 88, 84, 77, 51, 85, 10, 115, 111, 110, 103, 49, 46, 109, 112, 51, 10, 10],
            [115, 111, 110, 103, 50, 46, 109, 112, 51, 10]].flatten).filter
          (fun l => decide (l ≠ []))).length :=
  ⟨by decide, (Demux_references_le_lines MAX_LINE TYPE_M3U (fun _ => 0) true _ false
    (by decide)).2⟩

/-! ## Positions found by the scans of the ASX branch -/

theorem scanTo_spec (P : List Nat → Bool) :
    ∀ (s : List Nat), (scanTo P s < s.length → P (s.drop (scanTo P s)) = true) ∧
      ∀ m, m < scanTo P s → P (s.drop m) = false := by
  intro s
  induction s with
  | nil => simp [scanTo]
  | cons x t ih =>
    by_cases hp : P (x :: t) = true
    · simp [scanTo, hp]
    · have hf : P (x :: t) = false := by simpa using hp
      have e : scanTo P (x :: t) = scanTo P t + 1 := by simp [scanTo, hf]
      rw [e]
      refine ⟨fun hlt => ?_, fun m hm => ?_⟩
      · simp only [List.length_cons, Nat.add_lt_add_iff_right] at hlt
        simpa using ih.1 hlt
      · cases m with
        | zero => simpa using hf
        | succ k => simpa using ih.2 k (by omega)

theorem scanTo_unique (P : List Nat → Bool) (s : List Nat) (i : Nat) (h1 : i ≤ s.length)
    (h2 : i < s.length → P (s.drop i) = true) (h3 : ∀ m, m < i → P (s.drop m) = false) :
    scanTo P s = i := by
  have hs := scanTo_spec P s
  have hle := scanTo_le P s
  rcases Nat.lt_trichotomy (scanTo P s) i with h | h | h
  · have a := h3 _ h
    have b := hs.1 (by omega)
    rw [a] at b; exact absurd b (by simp)
  · exact h
  · have a := hs.2 _ h
    have b := h2 (by omega)
    rw [a] at b; exact absurd b (by simp)

theorem kwHere_drop (s : List Nat) (i : Nat) : kwHere (s.drop i) = true ↔ keywordAt s i := by
  simp [kwHere, keywordAt, occursAt]

theorem mmsHere_drop (s : List Nat) (i : Nat) :
    mmsHere (s.drop i) = true ↔ occursAt kw_mms s i := by
  simp [mmsHere, occursAt]

theorem occursAt_le (kw s : List Nat) (i : Nat) (h : occursAt kw s i) :
    i + kw.length ≤ s.length ∨ kw = [] := by
  have := congrArg List.length h
  simp at this
  by_cases hk : kw.length = 0
  · exact Or.inr (List.length_eq_zero.mp hk)
  · left; omega

theorem takeWhile_eq_take :
    ∀ (t : List Nat) (n : Nat), t[n]? = some 34 → (∀ m, m < n → t[m]? ≠ some 34) →
      t.takeWhile (fun c => decide (c ≠ 34)) = t.take n := by
  intro t
  induction t with
  | nil => intro n h; simp at h
  | cons x t ih =>
    intro n h hm
    cases n with
    | zero =>
      simp at h
      simp [List.takeWhile_cons, h]
    | succ k =>
      have hx : x ≠ 34 := by
        have := hm 0 (by omega)
        simpa using this
      have := ih k (by simpa using h) (fun m hmk => by
        have := hm (m + 1) (by omega)
        simpa using this)
      rw [List.takeWhile_cons]
      simp only [hx, ne_eq, not_false_eq_true, decide_True, if_true, List.take_succ_cons]
      rw [← this]

theorem asxRef_of_positions (s : List Nat) (i j k : Nat)
    (hi : leastFrom (keywordAt s) 0 i) (hj : leastFrom (occursAt kw_mms s) i j)
    (hk : leastFrom (fun m => s[m]? = some 34) j k) :
    asxRef s = some ((s.drop j).take (k - j)) := by
  obtain ⟨_, hi1, hi2⟩ := hi
  obtain ⟨hij, hj1, hj2⟩ := hj
  obtain ⟨hjk, hk1, hk2⟩ := hk
  have hil : i + 4 ≤ s.length := by
    rcases hi1 with h | h
    · rcases occursAt_le _ _ _ h with h | h
      · simpa [kw_href] using h
      · simp [kw_href] at h
    · rcases occursAt_le _ _ _ h with h | h
      · simp [kw_param] at h; omega
      · simp [kw_param] at h
  have hjl : j + 6 ≤ s.length := by
    rcases occursAt_le _ _ _ hj1 with h | h
    · simpa [kw_mms] using h
    · simp [kw_mms] at h
  have e1 : scanTo kwHere s = i := by
    apply scanTo_unique
    · omega
    · intro _; exact (kwHere_drop s i).mpr hi1
    · intro m hm
      have := hi2 m (Nat.zero_le _) hm
      rw [← kwHere_drop] at this
      simpa using this
  have e2 : scanTo mmsHere (s.drop i) = j - i := by
    apply scanTo_unique
    · simp; omega
    · intro _
      rw [List.drop_drop, show i + (j - i) = j by omega]
      exact (mmsHere_drop s j).mpr hj1
    · intro m hm
      rw [List.drop_drop]
      have := hj2 (i + m) (by omega) (by omega)
      rw [← mmsHere_drop] at this
      simpa using this
  have e3 : (s.drop i).drop (j - i) = s.drop j := by
    rw [List.drop_drop, show i + (j - i) = j by omega]
  have hk3 : (s.drop j)[k - j]? = some 34 := by
    rw [List.getElem?_drop, show j + (k - j) = k by omega]; exact hk1
  have hmem : 34 ∈ s.drop j := List.getElem?_mem hk3
  have htw := takeWhile_eq_take (s.drop j) (k - j) hk3 (fun m hm => by
    rw [List.getElem?_drop]
    exact hk2 (j + m) (by omega) (by omega))
  unfold asxRef
  simp only [e1, e2, e3, hmem, if_true, htw]

theorem getElem_middle (r b : List Nat) (x : Nat) : (r ++ x :: b)[r.length]? = some x := by
  rw [List.getElem?_append_right (Nat.le_refl _)]
  simp

theorem takeWhile_not_mem (t : List Nat) : 34 ∉ t.takeWhile (fun c => decide (c ≠ 34)) := by
  intro h
  have := List.mem_takeWhile_imp h
  simp at this

theorem asxRef_some (s r : List Nat) (h : asxRef s = some r) :
    ∃ i j k, leastFrom (keywordAt s) 0 i ∧ leastFrom (occursAt kw_mms s) i j ∧
      leastFrom (fun m => s[m]? = some 34) j k ∧ r = (s.drop j).take (k - j) ∧
      34 ∉ r ∧ ∃ post, s.drop j = r ++ 34 :: post := by
  have hs1 := scanTo_spec kwHere s
  have hs2 := scanTo_spec mmsHere (s.drop (scanTo kwHere s))
  have hr : asxRef s =
      if 34 ∈ (s.drop (scanTo kwHere s)).drop (scanTo mmsHere (s.drop (scanTo kwHere s)))
      then some (((s.drop (scanTo kwHere s)).drop
        (scanTo mmsHere (s.drop (scanTo kwHere s)))).takeWhile (fun c => decide (c ≠ 34)))
      else none := rfl
  rw [hr] at h
  generalize scanTo kwHere s = n1 at *
  generalize scanTo mmsHere (s.drop n1) = n2 at *
  rw [List.drop_drop] at h hs2
  by_cases hq : 34 ∈ s.drop (n1 + n2)
  · simp only [hq, if_true, Option.some.injEq] at h
    obtain ⟨b, hb⟩ := takeWhile_split _ hq
    rw [h] at hb
    have hnot : 34 ∉ r := by rw [← h]; exact takeWhile_not_mem _
    have hlen : n1 + n2 < s.length := by
      have := congrArg List.length hb
      simp at this; omega
    have hk : s[n1 + n2 + r.length]? = some 34 := by
      have : (s.drop (n1 + n2))[r.length]? = some 34 := by rw [hb]; exact getElem_middle _ _ _
      rwa [List.getElem?_drop] at this
    refine ⟨n1, n1 + n2, n1 + n2 + r.length, ⟨Nat.zero_le _, ?_, ?_⟩, ⟨by omega, ?_, ?_⟩,
      ⟨by omega, hk, ?_⟩, ?_, hnot, ⟨b, hb⟩⟩
    · exact (kwHere_drop s n1).mp (hs1.1 (by omega))
    · intro m _ hm
      have := hs1.2 m hm
      rw [← kwHere_drop]; simp [this]
    · exact (mmsHere_drop s (n1 + n2)).mp (hs2.1 (by simp; omega))
    · intro m h1 h2
      have := hs2.2 (m - n1) (by omega)
      rw [List.drop_drop, show n1 + (m - n1) = m by omega] at this
      rw [← mmsHere_drop]; simp [this]
    · intro m h1 h2 hm
      have e : s[m]? = (s.drop (n1 + n2))[m - (n1 + n2)]? := by
        rw [List.getElem?_drop, show n1 + n2 + (m - (n1 + n2)) = m by omega]
      rw [e, hb, List.getElem?_append_left (by omega)] at hm
      exact hnot (List.getElem?_mem hm)
    · rw [hb, show n1 + n2 + r.length - (n1 + n2) = r.length by omega, List.take_left]
  · simp [hq] at h

theorem kwHere_head (x : Nat) (m : List Nat) (h : kwHere (x :: m) = true) :
    tolower x = 104 ∨ tolower x = 112 := by
  simp only [kwHere, keywordAt, occursAt, decide_eq_true_eq, List.drop_zero] at h
  rcases h with h | h
  · left
    have := congrArg List.head? h
    simpa [kw_href] using this
  · right
    have := congrArg List.head? h
    simpa [kw_param] using this

theorem asxRef_cons_skip (x : Nat) (m : List Nat) (h : kwHere (x :: m) = false) :
    asxRef (x :: m) = asxRef m := by
  unfold asxRef
  simp [scanTo, h]

theorem asxRef_stripBlanks (s : List Nat) : asxRef (stripBlanks s) = asxRef s := by
  induction s with
  | nil => rfl
  | cons x m ih =>
    by_cases hx : isBlank x
    · have e : stripBlanks (x :: m) = stripBlanks m := by
        simp only [stripBlanks, List.dropWhile_cons, hx, decide_True, if_true]
      have hk : kwHere (x :: m) = false := by
        by_contra hh
        have := kwHere_head x m (by simpa using hh)
        unfold tolower at this
        rcases hx with h | h | h | h <;> subst h <;> simp at this
      rw [e, ih, asxRef_cons_skip x m hk]
    · have e : stripBlanks (x :: m) = x :: m := by
        simp only [stripBlanks, List.dropWhile_cons, hx, decide_False]
        rfl
      rw [e]

theorem cutAtNul_split (line : List Nat) : ∃ tail, line = cutAtNul line ++ tail :=
  ⟨line.dropWhile (fun c => decide (c ≠ 0)), (List.takeWhile_append_dropWhile _ line).symm⟩

theorem stripBlanks_split (s : List Nat) : ∃ pre, s = pre ++ stripBlanks s :=
  ⟨s.takeWhile (fun c => decide (isBlank c)), (List.takeWhile_append_dropWhile _ s).symm⟩

theorem refsOf_mem (max_line i_type : Nat) (r : List Nat) :
    ∀ (ls : List (List Nat)), r ∈ refsOf max_line i_type ls →
      ∃ l ∈ ls, l ≠ [] ∧ lineRef i_type l = some r := by
  intro ls
  induction ls with
  | nil => intro h; simp [refsOf] at h
  | cons l ls ih =>
    intro h
    have lift : (∃ m ∈ ls, m ≠ [] ∧ lineRef i_type m = some r) →
        ∃ m ∈ l :: ls, m ≠ [] ∧ lineRef i_type m = some r := by
      rintro ⟨m, hm, h1, h2⟩
      exact ⟨m, List.mem_cons_of_mem _ hm, h1, h2⟩
    unfold refsOf at h
    split at h
    · exact lift (ih h)
    · rename_i h0
      split at h
      · simp at h
      · split at h
        · exact lift (ih h)
        · rcases List.mem_append.mp h with h | h
          · refine ⟨l, List.mem_cons_self _ _, fun hh => h0 (by rw [hh]; rfl), ?_⟩
            cases hl : lineRef i_type l with
            | none => rw [hl] at h; simp at h
            | some v => rw [hl] at h; simp at h; rw [h]
          · exact lift (ih h)

theorem mms_prefix_of_takeWhile (t r post : List Nat) (h : t = r ++ 34 :: post)
    (hm : occursAt kw_mms t 0) : occursAt kw_mms r 0 := by
  simp only [occursAt, List.drop_zero] at hm ⊢
  by_cases hl : 6 ≤ r.length
  · rw [h, List.take_append_of_le_length (by simpa [kw_mms] using hl)] at hm
    exact hm
  · exfalso
    have h34 : (34 : Nat) ∈ t.take kw_mms.length := by
      have : (t.take kw_mms.length)[r.length]? = some 34 := by
        rw [List.getElem?_take_of_lt (by simp [kw_mms]; omega), h]
        exact getElem_middle _ _ _
      exact List.getElem?_mem this
    have : tolower 34 ∈ (t.take kw_mms.length).map tolower := List.mem_map_of_mem _ h34
    rw [hm] at this
    revert this
    decide

/-! ## Extraction from an assembled line -/

/-- C4 (amended). Line-Comment extraction of an assembled non-empty line whose
terminator fits in the buffer: with `t` the line cut before its first NUL byte
and without its leading blanks, no reference is produced if `t` starts with
`#`, and otherwise exactly one reference is produced, which is `t`. -/
theorem m3u_extraction (st : DemuxState) (line : List Nat)
    (h1 : st.i_linepos = line.length) (h2 : line ≠ [])
    (h3 : line.length < st.psz_line.length) (h4 : st.psz_line.take line.length = line) :
    ∃ st1, endOfLine TYPE_M3U st = .ok st1 ∧
      st1.playlist = st.playlist ++
        (if (stripBlanks (cutAtNul line)).head? = some 35 then []
          else [stripBlanks (cutAtNul line)]) := by
  obtain ⟨buf, _, hb⟩ := endOfLine_line TYPE_M3U st line h1 h2 h3 h4
  refine ⟨_, hb, ?_⟩
  simp only [pureRef, m3uRef, if_true]
  split <;> rfl

/-- Witness of `m3u_extraction`: the line ` a\0b` in an 8-byte buffer. -/
theorem m3u_extraction_witness :
    ∃ st1, endOfLine TYPE_M3U
        { psz_line := [32, 97, 0, 98, 7, 7, 7, 7], i_linepos := 4,
          b_discard := false, playlist := [] } = .ok st1 ∧
      st1.playlist = [] ++
        (if (stripBlanks (cutAtNul [32, 97, 0, 98])).head? = some 35 then []
          else [stripBlanks (cutAtNul [32, 97, 0, 98])]) :=
  m3u_extraction
    { psz_line := [32, 97, 0, 98, 7, 7, 7, 7], i_linepos := 4,
      b_discard := false, playlist := [] }
    [32, 97, 0, 98] rfl (by decide) (by decide) (by decide)

/-- C4 (counterexample). The M3U line `a\0b` does not start with `#` and has no
leading blank, yet the reference forwarded is `a`, not the whole line. -/
theorem m3u_line_with_nul :
    stripBlanks [97, 0, 98] = [97, 0, 98] ∧
      (stripBlanks [97, 0, 98]).head? ≠ some 35 ∧
      (Demux MAX_LINE TYPE_M3U (fun _ => 0) true ⟨[[97, 0, 98, 10]], false⟩).sink =
        [[97]] := by
  refine ⟨by decide, by decide, ?_⟩
  rw [Demux_sink _ _ _ _ _ (by decide)]
  decide

/-- C5 (amended). Markup-Attribute extraction of an assembled non-empty line
whose terminator fits in the buffer, with `s` the line cut before its first
NUL byte: if `i` is the least position of `href` or `param` in `s`, `j` the
least position of `mms://` at or after `i` and `k` the least position of `"`
at or after `j`, exactly one reference is produced, the bytes of `s` from `j`
up to `k` excluded; if there are no such positions, none is produced. -/
theorem asx_extraction (st : DemuxState) (line : List Nat)
    (h1 : st.i_linepos = line.length) (h2 : line ≠ [])
    (h3 : line.length < st.psz_line.length) (h4 : st.psz_line.take line.length = line) :
    ∃ st1, endOfLine TYPE_ASX st = .ok st1 ∧
      (∀ i j k, leastFrom (keywordAt (cutAtNul line)) 0 i →
        leastFrom (occursAt kw_mms (cutAtNul line)) i j →
        leastFrom (fun m => (cutAtNul line)[m]? = some 34) j k →
        st1.playlist = st.playlist ++ [((cutAtNul line).drop j).take (k - j)]) ∧
      ((¬ ∃ i j k, leastFrom (keywordAt (cutAtNul line)) 0 i ∧
          leastFrom (occursAt kw_mms (cutAtNul line)) i j ∧
          leastFrom (fun m => (cutAtNul line)[m]? = some 34) j k) →
        st1.playlist = st.playlist) := by
  obtain ⟨buf, _, hb⟩ := endOfLine_line TYPE_ASX st line h1 h2 h3 h4
  have hp : pureRef TYPE_ASX (cutAtNul line) = asxRef (cutAtNul line) := by
    have : TYPE_ASX ≠ TYPE_M3U := by decide
    simp only [pureRef, this, if_false, asxRef_stripBlanks]
  rw [hp] at hb
  refine ⟨_, hb, ?_, ?_⟩
  · intro i j k hi hj hk
    simp [asxRef_of_positions _ i j k hi hj hk]
  · intro hno
    cases hr : asxRef (cutAtNul line) with
    | none => simp
    | some r =>
      obtain ⟨i, j, k, hi, hj, hk, _⟩ := asxRef_some _ _ hr
      exact absurd ⟨i, j, k, hi, hj, hk⟩ hno

/-- Witness of `asx_extraction`: the line `href="mms://a"` in a 16-byte
buffer. -/
theorem asx_extraction_witness :
    ∃ st1, endOfLine TYPE_ASX
        { psz_line := [104, 114, 101, 102, 61, 34, 109, 109, 115, 58, 47, 47, 97, 34, 7, 7],
          i_linepos := 14, b_discard := false, playlist := [] } = .ok st1 ∧
      (∀ i j k,
        leastFrom (keywordAt (cutAtNul
          [104, 114, 101, 102, 61, 34, 109, 109, 115, 58, 47, 47, 97, 34])) 0 i →
        leastFrom (occursAt kw_mms (cutAtNul
          [104, 114, 101, 102, 61, 34, 109, 109, 115, 58, 47, 47, 97, 34])) i j →
        leastFrom (fun m => (cutAtNul
          [104, 114, 101, 102, 61, 34, 109, 109, 115, 58, 47, 47, 97, 34])[m]? = some 34) j k →
        st1.playlist = [] ++ [((cutAtNul
          [104, 114, 101, 102, 61, 34, 109, 109, 115, 58, 47, 47, 97, 34]).drop j).take
            (k - j)]) ∧
      ((¬ ∃ i j k,
          leastFrom (keywordAt (cutAtNul
            [104, 114, 101, 102, 61, 34, 109, 109, 115, 58, 47, 47, 97, 34])) 0 i ∧
          leastFrom (occursAt kw_mms (cutAtNul
            [104, 114, 101, 102, 61, 34, 109, 109, 115, 58, 47, 47, 97, 34])) i j ∧
          leastFrom (fun m => (cutAtNul
            [104, 114, 101, 102, 61, 34, 109, 109, 115, 58, 47, 47, 97, 34])[m]? = some 34)
              j k) →
        st1.playlist = []) :=
  asx_extraction
    { psz_line := [104, 114, 101, 102, 61, 34, 109, 109, 115, 58, 47, 47, 97, 34, 7, 7],
      i_linepos := 14, b_discard := false, playlist := [] }
    [104, 114, 101, 102, 61, 34, 109, 109, 115, 58, 47, 47, 97, 34]
    rfl (by decide) (by decide) (by decide)

/-- C5 (counterexample). In the ASX line `\0href="mms://a"` the positions
exist (`href` at 1, `mms://` at 7, the closing `"` at 14), yet no reference is
forwarded. -/
theorem asx_line_with_nul :
    leastFrom (keywordAt
        [0, 104, 114, 101, 102, 61, 34, 109, 109, 115, 58, 47, 47, 97, 34]) 0 1 ∧
      leastFrom (occursAt kw_mms
        [0, 104, 114, 101, 102, 61, 34, 109, 109, 115, 58, 47, 47, 97, 34]) 1 7 ∧
      leastFrom (fun m =>
        [0, 104, 114, 101, 102, 61, 34, 109, 109, 115, 58, 47, 47, 97, 34][m]? = some 34)
          7 14 ∧
      (Demux MAX_LINE TYPE_ASX (fun _ => 0) true
        ⟨[[0, 104, 114, 101, 102, 61, 34, 109, 109, 115, 58, 47, 47, 97, 34, 62]],
          false⟩).sink = [] := by
  refine ⟨by decide, by decide, by decide, ?_⟩
  rw [Demux_sink _ _ _ _ _ (by decide)]
  decide

/-! ## Runs at a line boundary, source failure, format isolation -/

theorem refsOf_cons_keep (max_line i_type : Nat) (l : List Nat) (ls : List (List Nat))
    (h0 : l ≠ []) (h1 : l.length < max_line) :
    refsOf max_line i_type (l :: ls) = (lineRef i_type l).toList ++ refsOf max_line i_type ls := by
  have a : l.length ≠ 0 := fun h => h0 (List.length_eq_zero.mp h)
  have b : l.length ≠ max_line := by omega
  have c : ¬ max_line < l.length := by omega
  simp [refsOf, a, b, c]

theorem refsOf_cons_full (max_line i_type : Nat) (l : List Nat) (ls : List (List Nat))
    (h0 : l ≠ []) (h1 : l.length = max_line) :
    refsOf max_line i_type (l :: ls) = [] := by
  have a : l.length ≠ 0 := fun h => h0 (List.length_eq_zero.mp h)
  have b : max_line ≠ 0 := by omega
  simp [refsOf, h1, b]

/-- C3 (failing input). In M3U format, after the line `ok`, a run of exactly
`MAX_LINE` bytes `a` and a newline: the run is neither empty nor longer than
`MAX_LINE`, and extraction accepts it, yet `Demux` forwards only `ok` and ends
in an access outside `psz_line` instead of the state `i_linepos = 0`,
`b_discard = false`. -/
theorem Demux_full_line_after_boundary (garbage : Nat → Nat) :
    lineRef TYPE_M3U (List.replicate MAX_LINE 97) = some (List.replicate MAX_LINE 97) ∧
      ∃ st, Demux MAX_LINE TYPE_M3U garbage true
          ⟨[[111, 107, 10], List.replicate MAX_LINE 97, [10]], false⟩ = .undefined st ∧
        st.playlist = [[111, 107]] := by
  have hpos : 0 < MAX_LINE := by unfold MAX_LINE; omega
  have hrep : List.replicate MAX_LINE 97 ≠ [] := replicate_ne_nil _ _ hpos
  have hrun : ∀ b ∈ List.replicate MAX_LINE 97, b ≠ eol_tok TYPE_M3U := by
    intro b hb; rw [List.eq_of_mem_replicate hb]; decide
  have hp : ∀ p ∈ [[111, 107, 10], List.replicate MAX_LINE 97, [10]], p ≠ ([] : List Nat) := by
    intro p hp
    rcases List.mem_cons.mp hp with hp | hp
    · rw [hp]; simp
    · rcases List.mem_cons.mp hp with hp | hp
      · rw [hp]; exact hrep
      · rw [List.mem_singleton.mp hp]; simp
  have hflat : [[111, 107, 10], List.replicate MAX_LINE 97, [10]].flatten =
      [111, 107] ++ eol_tok TYPE_M3U :: (List.replicate MAX_LINE 97 ++ eol_tok TYPE_M3U :: []) := by
    simp [eol_tok, TYPE_M3U, TYPE_ASX]
  have hcut : cutLines (eol_tok TYPE_M3U) []
      [[111, 107, 10], List.replicate MAX_LINE 97, [10]].flatten =
      [[111, 107], List.replicate MAX_LINE 97] := by
    rw [hflat, cutLines_run _ [111, 107] (by decide), cutLines_run _ _ hrun]
    simp [cutLines]
  refine ⟨by rw [show MAX_LINE = 1023 + 1 from rfl]; exact lineRef_replicate 1023, ?_⟩
  rcases Demux_cases MAX_LINE TYPE_M3U garbage
    ⟨[[111, 107, 10], List.replicate MAX_LINE 97, [10]], false⟩ with ⟨st, hst⟩ | ⟨st, hst⟩
  · have := (Demux_returns_iff MAX_LINE TYPE_M3U garbage _ false hp).mp ⟨st, hst⟩
    rw [hcut] at this
    exact absurd (List.length_replicate _ _) (this _ (by simp) hrep)
  · refine ⟨st, hst, ?_⟩
    have hs := Demux_sink MAX_LINE TYPE_M3U garbage _ false hp
    rw [hcut, hst, refsOf_cons_keep _ _ _ _ (by simp) (by simp [MAX_LINE]),
      refsOf_cons_full _ _ _ _ hrep (List.length_replicate _ _)] at hs
    rw [show st.playlist = (Result.undefined st).sink from rfl, hs]
    decide

theorem Demux_ignores_failure (max_line i_type : Nat) (garbage : Nat → Nat) (found : Bool)
    (packets : List (List Nat)) :
    Demux max_line i_type garbage found ⟨packets, true⟩ =
      Demux max_line i_type garbage found ⟨packets, false⟩ := by
  unfold Demux
  rfl

/-- C6 (failing input). The source delivers `a\nb\n` and then fails: `Demux`
returns 0, the very result it gives when the source ends normally, instead
of -1. -/
theorem Demux_source_failure_returns_zero (garbage : Nat → Nat) :
    (∃ st, Demux MAX_LINE TYPE_M3U garbage true ⟨[[97, 10, 98, 10]], true⟩ = .ret 0 st ∧
        st.playlist = [[97], [98]]) ∧
      Demux MAX_LINE TYPE_M3U garbage true ⟨[[97, 10, 98, 10]], true⟩ =
        Demux MAX_LINE TYPE_M3U garbage true ⟨[[97, 10, 98, 10]], false⟩ := by
  refine ⟨?_, Demux_ignores_failure _ _ _ _ _⟩
  have hp : ∀ p ∈ [[97, 10, 98, 10]], p ≠ ([] : List Nat) := by decide
  have hcut : cutLines (eol_tok TYPE_M3U) [] [[97, 10, 98, 10]].flatten = [[97], [98]] := by
    decide
  obtain ⟨st, hst⟩ := (Demux_returns_iff MAX_LINE TYPE_M3U garbage _ true hp).mpr (by
    rw [hcut]
    intro l hl _
    simp at hl
    rcases hl with hl | hl <;> rw [hl] <;> simp [MAX_LINE])
  refine ⟨st, hst, ?_⟩
  have hs := Demux_sink MAX_LINE TYPE_M3U garbage _ true hp
  rw [hcut, hst] at hs
  rw [show st.playlist = (Result.ret 0 st).sink from rfl, hs]
  decide

/-- C8 (amended). Format isolation.  In M3U format, an assembled line which,
cut before its first NUL byte and without its leading blanks, does not start
with `#` yields exactly that content as its reference, whatever `href`,
`param`, `mms://` or `"` it contains.  In ASX format, a line `l` and the line
`#` followed by `l` yield the same extraction result. -/
theorem format_isolation (st : DemuxState) (line l : List Nat)
    (h1 : st.i_linepos = line.length) (h2 : line ≠ [])
    (h3 : line.length < st.psz_line.length) (h4 : st.psz_line.take line.length = line)
    (h5 : (stripBlanks (cutAtNul line)).head? ≠ some 35) :
    (∃ st1, endOfLine TYPE_M3U st = .ok st1 ∧
        st1.playlist = st.playlist ++ [stripBlanks (cutAtNul line)]) ∧
      lineRef TYPE_ASX (35 :: l) = lineRef TYPE_ASX l := by
  constructor
  · obtain ⟨buf, _, hb⟩ := endOfLine_line TYPE_M3U st line h1 h2 h3 h4
    refine ⟨_, hb, ?_⟩
    simp [pureRef, m3uRef, h5]
  · have hne : TYPE_ASX ≠ TYPE_M3U := by decide
    have e1 : lineRef TYPE_ASX (35 :: l) = asxRef (cutAtNul l) := by
      rw [lineRef_eq _ _ (by simp)]
      have hc : cutAtNul (35 :: l) = 35 :: cutAtNul l := by
        simp [cutAtNul, List.takeWhile_cons]
      have hk : kwHere (35 :: cutAtNul l) = false := by
        by_contra hh
        have := kwHere_head 35 _ (by simpa using hh)
        revert this; decide
      simp only [pureRef, hne, if_false, asxRef_stripBlanks, hc]
      exact asxRef_cons_skip _ _ hk
    rw [e1]
    cases l with
    | nil => rw [lineRef_nil]; decide
    | cons x m =>
      rw [lineRef_eq _ _ (by simp)]
      simp only [pureRef, hne, if_false, asxRef_stripBlanks]

/-- Witness of `format_isolation`: the M3U line `href="mms://a"` and the ASX
line `href="mms://a"`. -/
theorem format_isolation_witness :
    (∃ st1, endOfLine TYPE_M3U
        { psz_line := [104, 114, 101, 102, 61, 34, 109, 109, 115, 58, 47, 47, 97, 34, 7, 7],
          i_linepos := 14, b_discard := false, playlist := [] } = .ok st1 ∧
        st1.playlist = [] ++ [stripBlanks (cutAtNul
          [104, 114, 101, 102, 61, 34, 109, 109, 115, 58, 47, 47, 97, 34])]) ∧
      lineRef TYPE_ASX (35 :: [104, 114, 101, 102, 61, 34, 109, 109, 115, 58, 47, 47, 97, 34]) =
        lineRef TYPE_ASX [104, 114, 101, 102, 61, 34, 109, 109, 115, 58, 47, 47, 97, 34] :=
  format_isolation
    { psz_line := [104, 114, 101, 102, 61, 34, 109, 109, 115, 58, 47, 47, 97, 34, 7, 7],
      i_linepos := 14, b_discard := false, playlist := [] }
    [104, 114, 101, 102, 61, 34, 109, 109, 115, 58, 47, 47, 97, 34]
    [104, 114, 101, 102, 61, 34, 109, 109, 115, 58, 47, 47, 97, 34]
    rfl (by decide) (by decide) (by decide) (by decide)

/-- C8 (counterexample). The M3U line `a\0"` does not start with `#`, yet its
reference is `a`: the content is cut at the NUL byte. -/
theorem m3u_quote_after_nul :
    (stripBlanks [97, 0, 34]).head? ≠ some 35 ∧
      (Demux MAX_LINE TYPE_M3U (fun _ => 0) true ⟨[[97, 0, 34, 10]], false⟩).sink = [[97]] ∧
      [97] ≠ stripBlanks [97, 0, 34] := by
  refine ⟨by decide, ?_, by decide⟩
  rw [Demux_sink _ _ _ _ _ (by decide)]
  decide

/-- C9. Never a partial reference: every reference that `Demux` forwards in ASX
format is a contiguous part of one terminated line of the stream, starts with
`mms://` (ignoring case), contains neither `"` nor `>`, and is followed in that
line by `"`. -/
theorem asx_reference_bounded (max_line : Nat) (garbage : Nat → Nat) (found : Bool)
    (packets : List (List Nat)) (failed : Bool) (h : ∀ p ∈ packets, p ≠ [])
    (r : List Nat)
    (hr : r ∈ (Demux max_line TYPE_ASX garbage found ⟨packets, failed⟩).sink) :
    ∃ line ∈ cutLines 62 [] packets.flatten, ∃ pre post,
      line = pre ++ r ++ 34 :: post ∧ occursAt kw_mms r 0 ∧ 34 ∉ r ∧ 62 ∉ r := by
  cases found with
  | false => simp [Demux, Result.sink, Result.state, initState] at hr
  | true =>
    rw [Demux_sink max_line TYPE_ASX garbage packets failed h] at hr
    obtain ⟨l, hl, hne, href⟩ := refsOf_mem _ _ _ _ hr
    have heol : eol_tok TYPE_ASX = 62 := by decide
    rw [heol] at hl
    refine ⟨l, hl, ?_⟩
    have hno := cutLines_no_eol 62 packets.flatten [] (by simp) l hl
    rw [lineRef_eq _ _ hne] at href
    have hty : TYPE_ASX ≠ TYPE_M3U := by decide
    simp only [pureRef, hty, if_false] at href
    obtain ⟨i, j, k, _, hj, _, _, h34, post, hpost⟩ := asxRef_some _ _ href
    obtain ⟨tail, htail⟩ := cutAtNul_split l
    obtain ⟨pre, hpre⟩ := stripBlanks_split (cutAtNul l)
    have hmms : occursAt kw_mms r 0 := by
      apply mms_prefix_of_takeWhile _ r post hpost
      exact (mmsHere_drop _ j).mp ((mmsHere_drop _ j).mpr hj.2.1) |> fun hh => by
        simpa [occursAt] using hh
    have hl2 : l = (pre ++ (stripBlanks (cutAtNul l)).take j) ++ r ++ 34 :: (post ++ tail) := by
      conv_lhs => rw [htail, hpre, ← List.take_append_drop j (stripBlanks (cutAtNul l)), hpost]
      simp
    refine ⟨_, _, hl2, hmms, h34, ?_⟩
    intro h62
    apply hno
    rw [hl2]
    simp [h62]

/-- Witness of `asx_reference_bounded`: the packets `<REF HREF="mms://h/a"/>` and
`</ENTRY>`. -/
theorem asx_reference_bounded_witness :
    (∀ p ∈ [[60, 82, 69, 70, 32, 72, 82, 69, 70, 61, 34, 109, 109, 115, 58, 47, 47, 104,
          47, 97, 34, 47, 62], [60, 47, 69, 78, 84, 82, 89, 62]], p ≠ ([] : List Nat)) ∧
      ∃ line ∈ cutLines 62 []
          [[60, 82, 69, 70, 32, 72, 82, 69, 70, 61, 34, 109, 109, 115, 58, 47, 47, 104,
            47, 97, 34, 47, 62], [60, 47, 69, 78, 84, 82, 89, 62]].flatten,
        ∃ pre post, line = pre ++ [109, 109, 115, 58, 47, 47, 104, 47, 97] ++ 34 :: post ∧
          occursAt kw_mms [109, 109, 115, 58, 47, 47, 104, 47, 97] 0 ∧
          34 ∉ [109, 109, 115, 58, 47, 47, 104, 47, 97] ∧
          62 ∉ [109, 109, 115, 58, 47, 47, 104, 47, 97] :=
  ⟨by decide,
    asx_reference_bounded MAX_LINE (fun _ => 0) true
      [[60, 82, 69, 70, 32, 72, 82, 69, 70, 61, 34, 109, 109, 115, 58, 47, 47, 104,
        47, 97, 34, 47, 62], [60, 47, 69, 78, 84, 82, 89, 62]] false (by decide)
      [109, 109, 115, 58, 47, 47, 104, 47, 97]
      (by rw [Demux_sink _ _ _ _ _ (by decide)]; decide)⟩

/-! ## `Demux` and the reference list of the specification -/

theorem demuxPacket_run (max_line i_type : Nat) :
    ∀ (run cur : List Nat) (st : DemuxState), Tracks max_line st cur →
      (∀ b ∈ run, b ≠ eol_tok i_type) →
      ∃ st1, demuxPacket max_line i_type st run = .ok st1 ∧
        Tracks max_line st1 (cur ++ run) ∧ st1.playlist = st.playlist := by
  intro run
  induction run with
  | nil => intro cur st h _; exact ⟨st, rfl, by simpa using h, rfl⟩
  | cons b bs ih =>
    intro cur st h hrun
    have hb : b ≠ eol_tok i_type := hrun b (List.mem_cons_self _ _)
    obtain ⟨st1, hr, ht, hp⟩ := storeByte_tracks max_line st cur b h
    obtain ⟨st2, hr2, ht2, hp2⟩ := ih (cur ++ [b]) st1 ht
      (fun c hc => hrun c (List.mem_cons_of_mem _ hc))
    refine ⟨st2, ?_, by simpa using ht2, by rw [hp2, hp]⟩
    simp only [demuxPacket, demuxByte, hb, ne_eq, not_false_eq_true, if_true, hr, Exec.andThen]
    exact hr2

/-- A run of bytes without the end-of-line token, followed by the token, read
from a line boundary, when the run does not have exactly `max_line` bytes:
the assembler comes back to `i_linepos = 0`, `b_discard = false`, and the
references grow by the extraction result of the run, or by nothing when the
run is empty or longer than `max_line`. -/
theorem line_from_boundary (max_line i_type : Nat) (st : DemuxState) (run : List Nat)
    (h : Tracks max_line st []) (hrun : ∀ b ∈ run, b ≠ eol_tok i_type)
    (hlen : run.length ≠ max_line) :
    ∃ st1, demuxPacket max_line i_type st (run ++ [eol_tok i_type]) = .ok st1 ∧
      st1.i_linepos = 0 ∧ st1.b_discard = false ∧ Tracks max_line st1 [] ∧
      st1.playlist = st.playlist ++
        (if run = [] ∨ max_line < run.length then [] else (lineRef i_type run).toList) := by
  obtain ⟨st1, hr, ht, hp⟩ := demuxPacket_run max_line i_type run [] st h hrun
  rw [List.nil_append] at ht
  have hstep : demuxPacket max_line i_type st (run ++ [eol_tok i_type]) =
      endOfLine i_type st1 := by
    rw [demuxPacket_append, hr]
    show (demuxByte max_line i_type st1 (eol_tok i_type)).andThen (fun s => Exec.ok s) = _
    rw [andThen_ok]
    simp [demuxByte]
  have fields : ∀ s : DemuxState, Tracks max_line s [] → s.i_linepos = 0 ∧ s.b_discard = false := by
    intro s hs
    rcases hs.2 with hh | hh
    · exact ⟨by simpa using hh.2.1, hh.2.2.1⟩
    · simp at hh
  by_cases hs : run = [] ∨ max_line < run.length
  · obtain ⟨st2, hr2, ht2, hp2⟩ := endOfLine_skip max_line i_type st1 run ht hs
    exact ⟨st2, by rw [hstep, hr2], (fields st2 ht2).1, (fields st2 ht2).2, ht2,
      by simp [hs, hp2, hp]⟩
  · have hne : run ≠ [] := fun hh => hs (Or.inl hh)
    have hlt : run.length < max_line := by
      have : ¬ max_line < run.length := fun hh => hs (Or.inr hh)
      omega
    obtain ⟨st2, hr2, ht2, hp2⟩ := endOfLine_keep max_line i_type st1 run ht hne hlt
    exact ⟨st2, by rw [hstep, hr2], (fields st2 ht2).1, (fields st2 ht2).2, ht2,
      by simp [hs, hp2, hp]⟩

/-- On a stream none of whose terminated lines has exactly `max_line` bytes,
`Demux` returns 0 and forwards the reference list of the specification. -/
theorem Demux_refines_spec (max_line i_type : Nat) (garbage : Nat → Nat)
    (packets : List (List Nat)) (failed : Bool) (h : ∀ p ∈ packets, p ≠ [])
    (hlen : ∀ l ∈ cutLines (eol_tok i_type) [] packets.flatten, l.length ≠ max_line) :
    (∃ st, Demux max_line i_type garbage true ⟨packets, failed⟩ = .ret 0 st) ∧
      (Demux max_line i_type garbage true ⟨packets, failed⟩).sink =
        specRefs max_line i_type packets.flatten := by
  constructor
  · exact (Demux_returns_iff max_line i_type garbage packets failed h).mpr
      (fun l hl _ => hlen l hl)
  · rw [Demux_sink max_line i_type garbage packets failed h]
    exact refsOf_eq_filterMap max_line i_type _ (fun l hl _ => hlen l hl)

/-- Scenario 1 of the specification: `#EXTM3U\nsong1.mp3\n\nsong2.mp3\n` in one
packet gives `song1.mp3`, `song2.mp3`. -/
theorem Demux_example_m3u (garbage : Nat → Nat) :
    (Demux MAX_LINE TYPE_M3U garbage true
      ⟨[[35, 69, 88, 84, 77, 51, 85, 10, 115, 111, 110, 103, 49, 46, 109, 112, 51, 10, 10,
        115, 111, 110, 103, 50, 46, 109, 112, 51, 10]], false⟩).sink =
      [[115, 111, 110, 103, 49, 46, 109, 112, 51], [115, 111, 110, 103, 50, 46, 109, 112, 51]] := by
  rw [Demux_sink _ _ _ _ _ (by decide)]
  decide

/-- Scenario 3 of the specification:
`<ENTRY><REF HREF="mms://host/stream1"/></ENTRY>` gives `mms://host/stream1`. -/
theorem Demux_example_asx (garbage : Nat → Nat) :
    (Demux MAX_LINE TYPE_ASX garbage true
      ⟨[[60, 69, 78, 84, 82, 89, 62, 60, 82, 69, 70, 32, 72, 82, 69, 70, 61, 34, 109, 109,
        115, 58, 47, 47, 104, 111, 115, 116, 47, 115, 116, 114, 101, 97, 109, 49, 34, 47, 62,
        60, 47, 69, 78, 84, 82, 89, 62]], false⟩).sink =
      [[109, 109, 115, 58, 47, 47, 104, 111, 115, 116, 47, 115, 116, 114, 101, 97, 109, 49]] := by
  rw [Demux_sink _ _ _ _ _ (by decide)]
  decide

/-- Scenario 5 of the specification, with a capacity of 8: `abcdefghijk\n`
is dropped and the following `ok\n` is forwarded. -/
theorem Demux_example_overlong :
    Demux 8 TYPE_M3U (fun _ => 0) true
      ⟨[[97, 98, 99, 100, 101, 102, 103, 104, 105, 106, 107, 10, 111, 107, 10]], false⟩ =
      .ret 0 { psz_line := [111, 107, 0, 100, 101, 102, 103, 104], i_linepos := 0,
               b_discard := false, playlist := [[111, 107]] } := by
  decide

/-! ## Format selection in `Activate` -/

theorem strrchr_none (c : Nat) : ∀ (s : List Nat), c ∉ s → strrchr s c = none := by
  intro s
  induction s with
  | nil => intro _; rfl
  | cons x m ih =>
    intro h
    have hx : ¬ x = c := fun hh => h (by simp [hh])
    have hm : c ∉ m := fun hh => h (by simp [hh])
    simp [strrchr, ih hm, hx]

theorem strrchr_last (pre tl : List Nat) (h0 : 0 ∉ pre) (hdot : 46 ∉ tl) :
    strrchr (pre ++ 46 :: tl) 46 = some (46 :: tl) := by
  induction pre with
  | nil => simp [strrchr, strrchr_none 46 tl hdot]
  | cons x m ih =>
    have hx : x ≠ 0 := fun hh => h0 (by simp [hh])
    have hm : 0 ∉ m := fun hh => h0 (by simp [hh])
    simp [strrchr, hx, ih hm]

theorem strcasecmp_eq_zero_iff :
    ∀ (s lit : List Nat), 0 ∉ s → (∀ c ∈ lit, tolower c ≠ 0) →
      (strcasecmp s lit = 0 ↔ s.map tolower = lit.map tolower) := by
  intro s
  induction s with
  | nil =>
    intro lit _ hl
    cases lit with
    | nil => simp [strcasecmp]
    | cons y t =>
      have hy := hl y (by simp)
      have h0 : tolower 0 = 0 := (tolower_zero_iff 0).mpr rfl
      simp [strcasecmp, h0]; omega
  | cons x s ih =>
    intro lit hs hl
    have hx : x ≠ 0 := fun hh => hs (by simp [hh])
    have hs1 : 0 ∉ s := fun hh => hs (by simp [hh])
    have hx0 : tolower x ≠ 0 := fun hh => hx ((tolower_zero_iff x).mp hh)
    cases lit with
    | nil =>
      have h0 : tolower 0 = 0 := (tolower_zero_iff 0).mpr rfl
      simp [strcasecmp, h0]; omega
    | cons y t =>
      by_cases hd : tolower x = tolower y
      · simp [strcasecmp, hd, hx, ih t hs1 (fun c hc => hl c (by simp [hc]))]
      · simp [strcasecmp, hd]; omega

theorem strncmp_eq_zero_iff (n : Nat) :
    ∀ (d lit : List Nat), lit.length = n → 0 ∉ lit →
      (strncmp d lit n = 0 ↔ d.take n = lit) := by
  induction n with
  | zero =>
    intro d lit hl _
    have : lit = [] := List.length_eq_zero.mp hl
    simp [strncmp, this]
  | succ n ih =>
    intro d lit hl h0
    match lit, hl with
    | y :: t, hl =>
      have hy : y ≠ 0 := fun hh => h0 (by simp [hh])
      have ht : 0 ∉ t := fun hh => h0 (by simp [hh])
      cases d with
      | nil => simp [strncmp]; omega
      | cons x d =>
        by_cases hd : x = y
        · subst hd
          simp [strncmp, hy, ih d t (by simpa using hl) ht]
        · simp [strncmp, hd]; omega

theorem demuxForced_iff (psz_demux : Option (List Nat)) (lit : List Nat)
    (hl : lit.length = 3) (h0 : 0 ∉ lit) :
    demuxForced psz_demux lit = true ↔ ∃ d, psz_demux = some d ∧ d.take 3 = lit := by
  cases psz_demux with
  | none => simp [demuxForced]
  | some d => simp [demuxForced, strncmp_eq_zero_iff 3 d lit hl h0]

/-- C19 (amended). Format selection in `Activate`, for an input name
`pre ++ "." ++ tl` whose last `.` is the one shown, `ext` being `"." ++ tl`:
if `ext` equals `.m3u` case-insensitively or the forced demux name starts with
`m3u`, `Activate` stores `TYPE_M3U` and returns 0; otherwise, if `ext` equals
`.asx` case-insensitively or the forced demux name starts with `asx`, it
stores `TYPE_ASX` and returns 0; otherwise it returns -1 and stores nothing.
When `malloc` fails it returns -1 and stores nothing in every case. -/
theorem Activate_selects (pre tl : List Nat) (psz_demux : Option (List Nat))
    (malloc_ok : Bool) (h0 : 0 ∉ pre ++ 46 :: tl) (hdot : 46 ∉ tl) :
    (((46 :: tl).map tolower = lit_dot_m3u ∨ ∃ d, psz_demux = some d ∧ d.take 3 = lit_m3u) →
      Activate (pre ++ 46 :: tl) psz_demux malloc_ok =
        some (if malloc_ok = true then { ret := 0, i_type := some TYPE_M3U }
          else { ret := -1, i_type := none })) ∧
    (¬ ((46 :: tl).map tolower = lit_dot_m3u ∨ ∃ d, psz_demux = some d ∧ d.take 3 = lit_m3u) →
      ((46 :: tl).map tolower = lit_dot_asx ∨ ∃ d, psz_demux = some d ∧ d.take 3 = lit_asx) →
      Activate (pre ++ 46 :: tl) psz_demux malloc_ok =
        some (if malloc_ok = true then { ret := 0, i_type := some TYPE_ASX }
          else { ret := -1, i_type := none })) ∧
    (¬ ((46 :: tl).map tolower = lit_dot_m3u ∨ ∃ d, psz_demux = some d ∧ d.take 3 = lit_m3u) →
      ¬ ((46 :: tl).map tolower = lit_dot_asx ∨ ∃ d, psz_demux = some d ∧ d.take 3 = lit_asx) →
      Activate (pre ++ 46 :: tl) psz_demux malloc_ok = some { ret := -1, i_type := none }) := by
  have hpre : 0 ∉ pre := fun hh => h0 (by simp [hh])
  have hext : 0 ∉ 46 :: tl := fun hh => h0 (List.mem_append_right _ hh)
  have hr := strrchr_last pre tl hpre hdot
  have e1 : strcasecmp (46 :: tl) lit_dot_m3u = 0 ↔ (46 :: tl).map tolower = lit_dot_m3u :=
    strcasecmp_eq_zero_iff _ _ hext (by decide)
  have e2 : strcasecmp (46 :: tl) lit_dot_asx = 0 ↔ (46 :: tl).map tolower = lit_dot_asx :=
    strcasecmp_eq_zero_iff _ _ hext (by decide)
  have f1 := demuxForced_iff psz_demux lit_m3u rfl (by decide)
  have f2 := demuxForced_iff psz_demux lit_asx rfl (by decide)
  unfold Activate
  rw [hr]
  simp only [e1, e2, f1, f2]
  refine ⟨fun hm => ?_, fun hm ha => ?_, fun hm ha => ?_⟩
  · rw [if_pos hm]
    cases malloc_ok <;> simp [TYPE_M3U]
  · rw [if_neg hm, if_pos ha]
    cases malloc_ok <;> simp [TYPE_ASX]
  · rw [if_neg hm, if_neg ha]
    simp

/-- Witness of `Activate_selects`: the name `list.M3U` with the forced demux
name `asx`. -/
theorem Activate_selects_witness :
    Activate ([108, 105, 115, 116] ++ 46 :: [77, 51, 85]) (some [97, 115, 120]) true =
      some (if true = true then { ret := 0, i_type := some TYPE_M3U }
        else { ret := -1, i_type := none }) :=
  (Activate_selects [108, 105, 115, 116] [77, 51, 85] (some [97, 115, 120]) true
    (by decide) (by decide)).1 (Or.inl (by decide))

/-- C19 (counterexample). For the name `a.m3u`, when `malloc` fails,
`Activate` returns -1 and stores no format. -/
theorem Activate_out_of_memory :
    Activate [97, 46, 109, 51, 117] none false = some { ret := -1, i_type := none } := by
  decide

/-! ## States at a line boundary -/

theorem playlist_Add_length (st : DemuxState) (bol : Nat) :
    (playlist_Add st bol).state.psz_line.length = st.psz_line.length := by
  unfold playlist_Add
  split <;> simp [Exec.state]

theorem asxBranch_length (st : DemuxState) (bol : Nat) :
    (asxBranch st bol).state.psz_line.length = st.psz_line.length := by
  unfold asxBranch
  split
  · simp [Exec.state]
  · split
    · simp [Exec.state]
    · split
      · simp [Exec.state]
      · split
        · simp [Exec.state]
        · split
          · simp [Exec.state]
          · split
            · simp [Exec.state]
            · split
              · simp [Exec.state]
              · simp [Exec.state]
              · rw [playlist_Add_length]; simp

theorem endOfLine_length (i_type : Nat) (st : DemuxState) :
    (endOfLine i_type st).state.psz_line.length = st.psz_line.length := by
  unfold endOfLine
  simp only []
  split
  · simp [Exec.state]
  · split
    · split
      · simp [Exec.state]
      · split
        · split
          · simp [Exec.state]
          · split
            · simp [Exec.state]
            · rw [playlist_Add_length]; simp
        · rw [asxBranch_length]; simp
    · simp [Exec.state]

theorem playlist_Add_ok_linepos (st st1 : DemuxState) (bol : Nat)
    (h : playlist_Add st bol = .ok st1) : st1.i_linepos = st.i_linepos := by
  have hp := (playlist_Add_fields st bol).1
  rw [h] at hp
  exact hp

theorem asxBranch_ok_linepos (st st1 : DemuxState) (bol : Nat)
    (h : asxBranch st bol = .ok st1) : st1.i_linepos = st.i_linepos := by
  have hp := (asxBranch_fields st bol).1
  rw [h] at hp
  exact hp

theorem endOfLine_ok_fields (i_type : Nat) (st st1 : DemuxState)
    (h : endOfLine i_type st = .ok st1) :
    st1.i_linepos = 0 ∧ st1.b_discard = false ∧ st1.psz_line.length = st.psz_line.length := by
  have hl := endOfLine_length i_type st
  have hf := endOfLine_fields i_type st
  rw [h] at hl hf
  simp only [Exec.state] at hl hf
  refine ⟨?_, hf.2, hl⟩
  unfold endOfLine at h
  simp only [] at h
  split at h
  · rename_i h0
    simp only [Exec.ok.injEq] at h
    rw [← h]; exact h0
  · split at h
    · split at h
      · simp at h
      · split at h
        · split at h
          · simp at h
          · split at h
            · simp only [Exec.ok.injEq] at h
              rw [← h]
            · exact playlist_Add_ok_linepos _ _ _ h
        · exact asxBranch_ok_linepos _ _ _ h
    · simp at h

theorem storeByte_length (max_line : Nat) (st : DemuxState) (b : Nat) :
    (storeByte max_line st b).state.psz_line.length = st.psz_line.length := by
  unfold storeByte
  split
  · simp [Exec.state]
  · split <;> simp [Exec.state]

theorem demuxByte_length (max_line i_type : Nat) (st : DemuxState) (b : Nat) :
    (demuxByte max_line i_type st b).state.psz_line.length = st.psz_line.length := by
  unfold demuxByte
  split
  · exact storeByte_length max_line st b
  · exact endOfLine_length i_type st

theorem demuxPacket_length (max_line i_type : Nat) :
    ∀ (bs : List Nat) (st : DemuxState),
      (demuxPacket max_line i_type st bs).state.psz_line.length = st.psz_line.length := by
  intro bs
  induction bs with
  | nil => intro st; rfl
  | cons b bs ih =>
    intro st
    have hb := demuxByte_length max_line i_type st b
    unfold demuxPacket
    cases hd : demuxByte max_line i_type st b with
    | ok st1 => rw [hd] at hb; simp only [Exec.andThen]; rw [ih st1]; exact hb
    | oob st1 => rw [hd] at hb; exact hb

theorem andThen_eq_ok (r : Exec) (f : DemuxState → Exec) (st : DemuxState)
    (h : r.andThen f = .ok st) : ∃ st0, r = .ok st0 ∧ f st0 = .ok st := by
  cases r with
  | ok st0 => exact ⟨st0, rfl, h⟩
  | oob st0 => simp [Exec.andThen] at h

/-- A run of `Demux` that returns on a stream ending at a line boundary (the
stream is empty or its last byte is the end-of-line token) leaves
`i_linepos = 0`, `b_discard = false` and a buffer of `max_line` bytes. -/
theorem line_boundary_state (max_line i_type : Nat) (garbage : Nat → Nat)
    (packets : List (List Nat)) (failed : Bool) (st : DemuxState)
    (h : ∀ p ∈ packets, p ≠ [])
    (hend : packets.flatten = [] ∨ ∃ s, packets.flatten = s ++ [eol_tok i_type])
    (hret : Demux max_line i_type garbage true ⟨packets, failed⟩ = .ret 0 st) :
    st.psz_line.length = max_line ∧ st.i_linepos = 0 ∧ st.b_discard = false := by
  rw [Demux_eq_packet max_line i_type garbage packets failed h] at hret
  have hok : demuxPacket max_line i_type (initState max_line garbage) packets.flatten = .ok st := by
    cases hd : demuxPacket max_line i_type (initState max_line garbage) packets.flatten with
    | ok st1 => rw [hd] at hret; simp at hret; rw [hret]
    | oob st1 => rw [hd] at hret; simp at hret
  have hlen := demuxPacket_length max_line i_type packets.flatten (initState max_line garbage)
  rw [hok] at hlen
  have hl : st.psz_line.length = max_line := by
    simpa [Exec.state, initState] using hlen
  rcases hend with he | ⟨s, he⟩
  · rw [he] at hok
    simp only [demuxPacket, Exec.ok.injEq] at hok
    rw [← hok]
    exact ⟨by simp [initState], rfl, rfl⟩
  · rw [he, demuxPacket_append] at hok
    obtain ⟨st0, _, h2⟩ := andThen_eq_ok _ _ _ hok
    have h3 : endOfLine i_type st0 = .ok st := by
      have : demuxPacket max_line i_type st0 [eol_tok i_type] =
          (endOfLine i_type st0).andThen (fun s => Exec.ok s) := by
        simp [demuxPacket, demuxByte]
      rw [this, andThen_ok] at h2
      exact h2
    have hf := endOfLine_ok_fields i_type st0 st h3
    exact ⟨hl, hf.1, hf.2.1⟩

/-- C11. No cross-line state: from any two states at a line boundary
(`i_linepos = 0`, `b_discard = false`, buffers of `max_line` bytes with any
contents, any references forwarded so far), the same line followed by the
end-of-line token adds the same references, which depend only on the line, the
format and `max_line`, and the two runs stop at an out-of-bounds access
together.  Every run that returns on a stream prefix ending at a line
boundary leaves such a state. -/
theorem no_cross_line_state (max_line i_type : Nat) (sa sb : DemuxState) (run : List Nat)
    (ha : sa.psz_line.length = max_line ∧ sa.i_linepos = 0 ∧ sa.b_discard = false)
    (hb : sb.psz_line.length = max_line ∧ sb.i_linepos = 0 ∧ sb.b_discard = false)
    (hrun : ∀ b ∈ run, b ≠ eol_tok i_type) :
    (demuxPacket max_line i_type sa (run ++ [eol_tok i_type])).state.playlist =
        sa.playlist ++ refsOf max_line i_type [run] ∧
      (demuxPacket max_line i_type sb (run ++ [eol_tok i_type])).state.playlist =
        sb.playlist ++ refsOf max_line i_type [run] ∧
      (demuxPacket max_line i_type sa (run ++ [eol_tok i_type])).isOk =
        (demuxPacket max_line i_type sb (run ++ [eol_tok i_type])).isOk ∧
      ∀ (garbage : Nat → Nat) (packets : List (List Nat)) (failed : Bool) (st : DemuxState),
        (∀ p ∈ packets, p ≠ []) →
        (packets.flatten = [] ∨ ∃ s, packets.flatten = s ++ [eol_tok i_type]) →
        Demux max_line i_type garbage true ⟨packets, failed⟩ = .ret 0 st →
        st.psz_line.length = max_line ∧ st.i_linepos = 0 ∧ st.b_discard = false := by
  have ta : Tracks max_line sa [] := ⟨ha.1, Or.inl ⟨by simp, ha.2.1, ha.2.2, by simp⟩⟩
  have tb : Tracks max_line sb [] := ⟨hb.1, Or.inl ⟨by simp, hb.2.1, hb.2.2, by simp⟩⟩
  have hcut : cutLines (eol_tok i_type) [] (run ++ [eol_tok i_type]) = [run] := by
    rw [cutLines_run _ run hrun [] []]
    simp [cutLines]
  have sa1 := demuxPacket_sim max_line i_type (run ++ [eol_tok i_type]) [] sa ta
  have sb1 := demuxPacket_sim max_line i_type (run ++ [eol_tok i_type]) [] sb tb
  rw [hcut] at sa1 sb1
  refine ⟨sa1.1, sb1.1, ?_, ?_⟩
  · rw [Bool.eq_iff_iff, sa1.2, sb1.2]
  · intro garbage packets failed st h hend hret
    exact line_boundary_state max_line i_type garbage packets failed st h hend hret

/-- Witness of `no_cross_line_state`: the line `ab` in M3U format, from a
buffer that still holds an earlier, longer line and from a buffer of zeros. -/
theorem no_cross_line_state_witness :
    (demuxPacket 8 TYPE_M3U
        { psz_line := [35, 69, 88, 84, 77, 51, 85, 0], i_linepos := 0, b_discard := false,
          playlist := [[120]] } ([97, 98] ++ [eol_tok TYPE_M3U])).state.playlist =
        [[120]] ++ refsOf 8 TYPE_M3U [[97, 98]] ∧
      (demuxPacket 8 TYPE_M3U
        { psz_line := [0, 0, 0, 0, 0, 0, 0, 0], i_linepos := 0, b_discard := false,
          playlist := [] } ([97, 98] ++ [eol_tok TYPE_M3U])).state.playlist =
        [] ++ refsOf 8 TYPE_M3U [[97, 98]] ∧
      (demuxPacket 8 TYPE_M3U
        { psz_line := [35, 69, 88, 84, 77, 51, 85, 0], i_linepos := 0, b_discard := false,
          playlist := [[120]] } ([97, 98] ++ [eol_tok TYPE_M3U])).isOk =
        (demuxPacket 8 TYPE_M3U
          { psz_line := [0, 0, 0, 0, 0, 0, 0, 0], i_linepos := 0, b_discard := false,
            playlist := [] } ([97, 98] ++ [eol_tok TYPE_M3U])).isOk ∧
      ∀ (garbage : Nat → Nat) (packets : List (List Nat)) (failed : Bool) (st : DemuxState),
        (∀ p ∈ packets, p ≠ []) →
        (packets.flatten = [] ∨ ∃ s, packets.flatten = s ++ [eol_tok TYPE_M3U]) →
        Demux 8 TYPE_M3U garbage true ⟨packets, failed⟩ = .ret 0 st →
        st.psz_line.length = 8 ∧ st.i_linepos = 0 ∧ st.b_discard = false :=
  no_cross_line_state 8 TYPE_M3U
    { psz_line := [35, 69, 88, 84, 77, 51, 85, 0], i_linepos := 0, b_discard := false,
      playlist := [[120]] }
    { psz_line := [0, 0, 0, 0, 0, 0, 0, 0], i_linepos := 0, b_discard := false,
      playlist := [] }
    [97, 98] (by decide) (by decide) (by decide)

/-! ## Leading blanks of references, and the unterminated last line -/

theorem stripBlanks_head (s : List Nat) (c : Nat) (h : (stripBlanks s).head? = some c) :
    ¬ isBlank c := by
  induction s with
  | nil => simp [stripBlanks] at h
  | cons x m ih =>
    by_cases hx : isBlank x
    · have e : stripBlanks (x :: m) = stripBlanks m := by
        simp only [stripBlanks, List.dropWhile_cons, hx, decide_True, if_true]
      rw [e] at h
      exact ih h
    · have e : stripBlanks (x :: m) = x :: m := by
        simp only [stripBlanks, List.dropWhile_cons, hx, decide_False]
        rfl
      rw [e] at h
      simp at h
      rw [← h]; exact hx

/-- C12 (amended). In M3U format no reference forwarded to the playlist begins
with a space, tab, CR or LF character. -/
theorem m3u_reference_no_leading_blank (max_line : Nat) (garbage : Nat → Nat) (found : Bool)
    (packets : List (List Nat)) (failed : Bool) (h : ∀ p ∈ packets, p ≠ [])
    (r : List Nat)
    (hr : r ∈ (Demux max_line TYPE_M3U garbage found ⟨packets, failed⟩).sink) :
    ∀ c, r.head? = some c → ¬ isBlank c := by
  cases found with
  | false => simp [Demux, Result.sink, Result.state, initState] at hr
  | true =>
    rw [Demux_sink max_line TYPE_M3U garbage packets failed h] at hr
    obtain ⟨l, _, hne, href⟩ := refsOf_mem _ _ _ _ hr
    rw [lineRef_eq _ _ hne] at href
    simp only [pureRef, if_true, m3uRef] at href
    split at href
    · simp at href
    · simp only [Option.some.injEq] at href
      intro c hc
      rw [← href] at hc
      exact stripBlanks_head _ c hc

/-- Witness of `m3u_reference_no_leading_blank`: the packet ` \tsong1.mp3\n`
and its reference `song1.mp3`. -/
theorem m3u_reference_no_leading_blank_witness :
    (∀ p ∈ [[32, 9, 115, 111, 110, 103, 49, 46, 109, 112, 51, 10]], p ≠ ([] : List Nat)) ∧
      ∀ c, [115, 111, 110, 103, 49, 46, 109, 112, 51].head? = some c → ¬ isBlank c :=
  ⟨by decide,
    m3u_reference_no_leading_blank MAX_LINE (fun _ => 0) true
      [[32, 9, 115, 111, 110, 103, 49, 46, 109, 112, 51, 10]] false (by decide)
      [115, 111, 110, 103, 49, 46, 109, 112, 51]
      (by rw [Demux_sink _ _ _ _ _ (by decide)]; decide)⟩

/-- C12 (counterexample). The entry `song1.mp3\r\n` of a CRLF playlist is
forwarded as `song1.mp3\r`, which ends with a CR character. -/
theorem m3u_crlf_entry :
    (Demux MAX_LINE TYPE_M3U (fun _ => 0) true
      ⟨[[115, 111, 110, 103, 49, 46, 109, 112, 51, 13, 10]], false⟩).sink =
        [[115, 111, 110, 103, 49, 46, 109, 112, 51, 13]] ∧
      [115, 111, 110, 103, 49, 46, 109, 112, 51, 13].getLast? = some 13 ∧ isBlank 13 := by
  refine ⟨?_, by decide, by decide⟩
  rw [Demux_sink _ _ _ _ _ (by decide)]
  decide

theorem cutLines_no_token (eol : Nat) :
    ∀ (tail cur : List Nat), (∀ b ∈ tail, b ≠ eol) → cutLines eol cur tail = [] := by
  intro tail
  induction tail with
  | nil => intro cur _; rfl
  | cons b bs ih =>
    intro cur h
    have hb : b ≠ eol := h b (List.mem_cons_self _ _)
    simp only [cutLines, hb, if_false]
    exact ih _ (fun c hc => h c (List.mem_cons_of_mem _ hc))

theorem cutLines_tail (eol : Nat) (tail : List Nat) (ht : ∀ b ∈ tail, b ≠ eol) :
    ∀ (s cur : List Nat), cutLines eol cur (s ++ tail) = cutLines eol cur s := by
  intro s
  induction s with
  | nil => intro cur; simp [cutLines, cutLines_no_token eol tail cur ht]
  | cons b bs ih =>
    intro cur
    show cutLines eol cur (b :: (bs ++ tail)) = _
    by_cases hb : b = eol
    · simp only [cutLines, hb, if_true, ih]
    · simp only [cutLines, hb, if_false, ih]

/-- C16. An unterminated final line is never emitted: the bytes `tail` that
the source delivers after the last end-of-line token add no reference, and a
stream without any end-of-line token forwards none. -/
theorem unterminated_tail_dropped (max_line i_type : Nat) (garbage : Nat → Nat) (found : Bool)
    (packets : List (List Nat)) (tail : List Nat) (failed : Bool)
    (h : ∀ p ∈ packets, p ≠ []) (ht : tail ≠ [])
    (heol : ∀ b ∈ tail, b ≠ eol_tok i_type) :
    (Demux max_line i_type garbage found ⟨packets ++ [tail], failed⟩).sink =
        (Demux max_line i_type garbage found ⟨packets, failed⟩).sink ∧
      (Demux max_line i_type garbage found ⟨[tail], failed⟩).sink = [] := by
  cases found with
  | false => simp [Demux, Result.sink, Result.state, initState]
  | true =>
    have h2 : ∀ p ∈ packets ++ [tail], p ≠ [] := by
      intro p hp
      rcases List.mem_append.mp hp with hp | hp
      · exact h p hp
      · rw [List.mem_singleton.mp hp]; exact ht
    have h3 : ∀ p ∈ [tail], p ≠ [] := by
      intro p hp; rw [List.mem_singleton.mp hp]; exact ht
    rw [Demux_sink _ _ _ _ _ h2, Demux_sink _ _ _ _ _ h, Demux_sink _ _ _ _ _ h3]
    constructor
    · have : (packets ++ [tail]).flatten = packets.flatten ++ tail := by simp
      rw [this, cutLines_tail _ tail heol]
    · have : [tail].flatten = tail := by simp
      rw [this, cutLines_no_token _ tail [] heol]
      rfl

/-- Witness of `unterminated_tail_dropped`: `a\n` followed by `song1.mp3`
without a newline. -/
theorem unterminated_tail_dropped_witness :
    (∀ p ∈ [[97, 10]], p ≠ ([] : List Nat)) ∧
      (Demux MAX_LINE TYPE_M3U (fun _ => 0) true
          ⟨[[97, 10]] ++ [[115, 111, 110, 103, 49, 46, 109, 112, 51]], false⟩).sink =
        (Demux MAX_LINE TYPE_M3U (fun _ => 0) true ⟨[[97, 10]], false⟩).sink ∧
      (Demux MAX_LINE TYPE_M3U (fun _ => 0) true
          ⟨[[115, 111, 110, 103, 49, 46, 109, 112, 51]], false⟩).sink = [] :=
  ⟨by decide,
    unterminated_tail_dropped MAX_LINE TYPE_M3U (fun _ => 0) true [[97, 10]]
      [115, 111, 110, 103, 49, 46, 109, 112, 51] false (by decide) (by decide) (by decide)⟩

/-! ## `mms://` before the keyword, NUL bytes, and lines of blanks -/

theorem occursAt_append (kw s tail : List Nat) (m : Nat) (h : m + kw.length ≤ s.length) :
    occursAt kw (s ++ tail) m ↔ occursAt kw s m := by
  have e : ((s ++ tail).drop m).take kw.length = (s.drop m).take kw.length := by
    rw [List.drop_append_of_le_length (by omega),
      List.take_append_of_le_length (by simp; omega)]
  simp only [occursAt, e]

theorem occursAt_mms_le (s : List Nat) (j : Nat) (h : occursAt kw_mms s j) :
    j + kw_mms.length ≤ s.length := by
  rcases occursAt_le _ _ _ h with h | h
  · exact h
  · simp [kw_mms] at h

theorem keywordAt_append (s tail : List Nat) (i : Nat) (h : keywordAt s i) :
    keywordAt (s ++ tail) i := by
  rcases h with h | h
  · left
    rcases occursAt_le _ _ _ h with hl | hl
    · exact (occursAt_append _ _ _ _ hl).mpr h
    · simp [kw_href] at hl
  · right
    rcases occursAt_le _ _ _ h with hl | hl
    · exact (occursAt_append _ _ _ _ hl).mpr h
    · simp [kw_param] at hl

theorem lineRef_asx (line : List Nat) : lineRef TYPE_ASX line = asxRef (cutAtNul line) := by
  cases line with
  | nil => rw [lineRef_nil]; decide
  | cons x m =>
    have hne : TYPE_ASX ≠ TYPE_M3U := by decide
    rw [lineRef_eq _ _ (by simp)]
    simp only [pureRef, hne, if_false, asxRef_stripBlanks]

theorem refsOf_single_none (max_line i_type : Nat) (line : List Nat)
    (h : lineRef i_type line = none) : refsOf max_line i_type [line] = [] := by
  unfold refsOf
  split
  · rfl
  · split
    · rfl
    · split
      · rfl
      · simp [h, refsOf]

/-- C14. In ASX format the search for `mms://` starts at the first `href` or
`param`: a line in which no `href` or `param` occurs at or before any
occurrence of `mms://` yields no reference, whatever follows the `mms://`
text; `Demux` forwards nothing for that line. -/
theorem asx_mms_before_keyword (max_line : Nat) (garbage : Nat → Nat) (failed : Bool)
    (line : List Nat) (hgt : ∀ b ∈ line, b ≠ 62)
    (hocc : ∀ j, j < line.length → occursAt kw_mms line j → ∀ i, i ≤ j → ¬ keywordAt line i) :
    lineRef TYPE_ASX line = none ∧
      (Demux max_line TYPE_ASX garbage true ⟨[line ++ [62]], failed⟩).sink = [] := by
  have hnone : lineRef TYPE_ASX line = none := by
    rw [lineRef_asx]
    cases hr : asxRef (cutAtNul line) with
    | none => rfl
    | some r =>
      exfalso
      obtain ⟨i, j, k, hi, hj, _⟩ := asxRef_some _ _ hr
      obtain ⟨tail, htail⟩ := cutAtNul_split line
      have hjl := occursAt_mms_le _ _ hj.2.1
      have hj1 : occursAt kw_mms line j := by
        rw [htail]; exact (occursAt_append _ _ _ _ hjl).mpr hj.2.1
      have hi1 : keywordAt line i := by
        rw [htail]; exact keywordAt_append _ _ _ hi.2.1
      have hlt : j < line.length := by
        have := congrArg List.length htail
        simp [kw_mms] at hjl this
        omega
      exact hocc j hlt hj1 i hj.1 hi1
  refine ⟨hnone, ?_⟩
  have heol : eol_tok TYPE_ASX = 62 := by decide
  rw [Demux_sink _ _ _ _ _ (by simp)]
  have hflat : [line ++ [62]].flatten = line ++ eol_tok TYPE_ASX :: [] := by simp [heol]
  rw [hflat, cutLines_run _ line (by rw [heol]; exact hgt) [] []]
  simp only [List.nil_append, cutLines]
  exact refsOf_single_none _ _ _ hnone

/-- Witness of `asx_mms_before_keyword`: the line `mms://a" href`. -/
theorem asx_mms_before_keyword_witness :
    lineRef TYPE_ASX [109, 109, 115, 58, 47, 47, 97, 34, 32, 104, 114, 101, 102] = none ∧
      (Demux MAX_LINE TYPE_ASX (fun _ => 0) true
        ⟨[[109, 109, 115, 58, 47, 47, 97, 34, 32, 104, 114, 101, 102] ++ [62]], false⟩).sink =
        [] :=
  asx_mms_before_keyword MAX_LINE (fun _ => 0) false
    [109, 109, 115, 58, 47, 47, 97, 34, 32, 104, 114, 101, 102] (by decide) (by decide)

theorem Demux_single_line (max_line i_type : Nat) (garbage : Nat → Nat) (failed : Bool)
    (line : List Nat) (heol : ∀ b ∈ line, b ≠ eol_tok i_type) :
    (Demux max_line i_type garbage true ⟨[line ++ [eol_tok i_type]], failed⟩).sink =
      refsOf max_line i_type [line] := by
  rw [Demux_sink _ _ _ _ _ (by simp)]
  have hflat : [line ++ [eol_tok i_type]].flatten = line ++ eol_tok i_type :: [] := by simp
  rw [hflat, cutLines_run _ line heol [] []]
  simp only [List.nil_append, cutLines]

/-- A NUL byte inside a line ends the line for extraction, for lines that do
not have exactly `max_line` bytes.  For a line containing a byte 0: the
extraction result is that of the line cut before its first NUL byte, and is
the same for every line with the same cut; in M3U format it is the cut content
without its leading blanks (nothing if that starts with `#`).  The length
checks use the whole line: when it is shorter than `max_line` its extraction
result is forwarded (also when the cut is empty), and when it is longer than
`max_line` nothing is forwarded. -/
theorem nul_ends_line (max_line i_type : Nat) (garbage : Nat → Nat) (failed : Bool)
    (line : List Nat) (hnul : 0 ∈ line) (heol : ∀ b ∈ line, b ≠ eol_tok i_type) :
    (cutAtNul line ≠ [] → lineRef i_type line = lineRef i_type (cutAtNul line)) ∧
      (∀ other, other ≠ [] → cutAtNul other = cutAtNul line →
        lineRef i_type other = lineRef i_type line) ∧
      (i_type = TYPE_M3U → lineRef i_type line =
        if (stripBlanks (cutAtNul line)).head? = some 35 then none
        else some (stripBlanks (cutAtNul line))) ∧
      (line.length < max_line →
        (Demux max_line i_type garbage true ⟨[line ++ [eol_tok i_type]], failed⟩).sink =
          (lineRef i_type line).toList) ∧
      (max_line < line.length →
        (Demux max_line i_type garbage true ⟨[line ++ [eol_tok i_type]], failed⟩).sink = []) := by
  have hne : line ≠ [] := List.ne_nil_of_mem hnul
  have hl := lineRef_eq i_type line hne
  refine ⟨?_, ?_, ?_, ?_, ?_⟩
  · intro hc
    rw [hl, lineRef_eq i_type _ hc, cutAtNul_of_not_mem _ (cutAtNul_not_mem line)]
  · intro other ho hcut
    rw [hl, lineRef_eq i_type other ho, hcut]
  · intro hty
    rw [hl]
    simp only [pureRef, hty, if_true, m3uRef]
  · intro hlt
    rw [Demux_single_line _ _ _ _ _ heol, refsOf_cons_keep _ _ _ _ hne hlt]
    simp [refsOf]
  · intro hgt
    rw [Demux_single_line _ _ _ _ _ heol]
    have h0 : line.length ≠ 0 := by omega
    have h1 : line.length ≠ max_line := by omega
    simp [refsOf, h0, h1, hgt]

/-- Witness of `nul_ends_line`: the M3U line `\0#x`, whose cut is empty and
whose reference is the empty string. -/
theorem nul_ends_line_witness :
    (cutAtNul [0, 35, 120] ≠ [] →
        lineRef TYPE_M3U [0, 35, 120] = lineRef TYPE_M3U (cutAtNul [0, 35, 120])) ∧
      (∀ other, other ≠ [] → cutAtNul other = cutAtNul [0, 35, 120] →
        lineRef TYPE_M3U other = lineRef TYPE_M3U [0, 35, 120]) ∧
      (TYPE_M3U = TYPE_M3U → lineRef TYPE_M3U [0, 35, 120] =
        if (stripBlanks (cutAtNul [0, 35, 120])).head? = some 35 then none
        else some (stripBlanks (cutAtNul [0, 35, 120]))) ∧
      ([0, 35, 120].length < MAX_LINE →
        (Demux MAX_LINE TYPE_M3U (fun _ => 0) true
          ⟨[[0, 35, 120] ++ [eol_tok TYPE_M3U]], false⟩).sink =
          (lineRef TYPE_M3U [0, 35, 120]).toList) ∧
      (MAX_LINE < [0, 35, 120].length →
        (Demux MAX_LINE TYPE_M3U (fun _ => 0) true
          ⟨[[0, 35, 120] ++ [eol_tok TYPE_M3U]], false⟩).sink = []) :=
  nul_ends_line MAX_LINE TYPE_M3U (fun _ => 0) false [0, 35, 120] (by decide) (by decide)

/-! ## The terminator of a line of `MAX_LINE` bytes -/

theorem endOfLine_no_room (i_type : Nat) (st : DemuxState) (h1 : st.i_linepos ≠ 0)
    (h2 : ¬ st.i_linepos < st.psz_line.length) :
    endOfLine i_type st = .oob { st with b_discard := false } := by
  simp [endOfLine, h1, h2]

theorem Demux_exact_line_state (max_line i_type : Nat) (garbage : Nat → Nat) (line : List Nat)
    (hl : line.length = max_line) (hne : line ≠ [])
    (heol : ∀ b ∈ line, b ≠ eol_tok i_type) :
    ∃ st, Demux max_line i_type garbage true ⟨[line, [eol_tok i_type]], false⟩ =
        .undefined st ∧
      st.i_linepos = max_line ∧ st.psz_line.length = max_line ∧ st.playlist = [] := by
  have hp : ∀ p ∈ [line, [eol_tok i_type]], p ≠ ([] : List Nat) := by
    intro p hp
    rcases List.mem_cons.mp hp with hp | hp
    · rw [hp]; exact hne
    · rw [List.mem_singleton.mp hp]; simp
  obtain ⟨st1, hr, ht, hpl⟩ := demuxPacket_run max_line i_type line []
    (initState max_line garbage) (initState_tracks max_line garbage) heol
  rw [List.nil_append] at ht
  have hpos : line.length ≠ 0 := fun h => hne (List.length_eq_zero.mp h)
  obtain ⟨hlen, hcase⟩ := ht
  have hfields : st1.i_linepos = line.length := by
    rcases hcase with hc | hc
    · exact hc.2.1
    · omega
  have hoob := endOfLine_no_room i_type st1 (by omega) (by omega)
  refine ⟨{ st1 with b_discard := false }, ?_, by simp [hfields, hl], by simp [hlen], ?_⟩
  · rw [Demux_eq_packet _ _ _ _ _ hp]
    have hflat : [line, [eol_tok i_type]].flatten = line ++ [eol_tok i_type] := by simp
    rw [hflat, demuxPacket_append, hr]
    have : demuxPacket max_line i_type st1 [eol_tok i_type] =
        (endOfLine i_type st1).andThen (fun s => Exec.ok s) := by
      simp [demuxPacket, demuxByte]
    simp only [Exec.andThen]
    rw [this, hoob]
    rfl
  · simp [hpl, initState]

/-- C13 (failing input). In ASX format, `MAX_LINE` bytes `a` followed by `>`:
when the line is completed `i_linepos` equals `MAX_LINE`, the size of
`psz_line`, so the terminator write `psz_line[i_linepos] = '\0'` is out of
range. -/
theorem Demux_terminator_out_of_range (garbage : Nat → Nat) :
    ∃ st, Demux MAX_LINE TYPE_ASX garbage true
        ⟨[List.replicate MAX_LINE 97, [62]], false⟩ = .undefined st ∧
      st.i_linepos = MAX_LINE ∧ st.psz_line.length = MAX_LINE ∧ st.playlist = [] := by
  have hpos : 0 < MAX_LINE := by unfold MAX_LINE; omega
  exact Demux_exact_line_state MAX_LINE TYPE_ASX garbage _ (List.length_replicate _ _)
    (replicate_ne_nil _ _ hpos)
    (by intro b hb; rw [List.eq_of_mem_replicate hb]; decide)

/-- C15 (failing input). A line of `MAX_LINE` bytes `a` assembled in `psz_line`:
in both formats the end-of-line handler stops at the out-of-range terminator
write before any scan, giving neither a reference nor nothing. -/
theorem endOfLine_on_full_buffer :
    endOfLine TYPE_M3U
        { psz_line := List.replicate MAX_LINE 97, i_linepos := MAX_LINE,
          b_discard := false, playlist := [] } =
      .oob { psz_line := List.replicate MAX_LINE 97, i_linepos := MAX_LINE,
             b_discard := false, playlist := [] } ∧
    endOfLine TYPE_ASX
        { psz_line := List.replicate MAX_LINE 97, i_linepos := MAX_LINE,
          b_discard := false, playlist := [] } =
      .oob { psz_line := List.replicate MAX_LINE 97, i_linepos := MAX_LINE,
             b_discard := false, playlist := [] } := by
  have hpos : MAX_LINE ≠ 0 := by unfold MAX_LINE; omega
  constructor
  · exact endOfLine_no_room TYPE_M3U _ hpos (by simp)
  · exact endOfLine_no_room TYPE_ASX _ hpos (by simp)

/-- For a line shorter than the buffer, in either format, the end-of-line
handler ends without any access outside the part of the buffer up to the
terminator: it gives the same result on the buffer cut after the terminator,
where any further read would be out of range. -/
theorem extraction_total (i_type : Nat) (st : DemuxState) (line : List Nat)
    (h1 : st.i_linepos = line.length) (h2 : line ≠ [])
    (h3 : line.length < st.psz_line.length) (h4 : st.psz_line.take line.length = line) :
    (endOfLine i_type st).isOk = true ∧
      (endOfLine i_type
        { st with psz_line := line ++ [0] }).isOk = true ∧
      (endOfLine i_type st).state.playlist =
        (endOfLine i_type { st with psz_line := line ++ [0] }).state.playlist := by
  obtain ⟨buf, _, hb⟩ := endOfLine_line i_type st line h1 h2 h3 h4
  obtain ⟨buf2, _, hb2⟩ := endOfLine_line i_type { st with psz_line := line ++ [0] } line h1 h2
    (by simp) (by simp)
  rw [hb, hb2]
  simp [Exec.isOk, Exec.state]

theorem stripBlanks_all_blank (line : List Nat) (h : ∀ c ∈ line, c = 32 ∨ c = 9 ∨ c = 13) :
    stripBlanks line = [] := by
  unfold stripBlanks
  rw [List.dropWhile_eq_nil_iff]
  intro c hc
  rcases h c hc with h | h | h <;> simp [h]

/-- A non-empty line made only of space, tab and CR characters has the empty
string as its M3U reference, and `Demux` forwards it when the line is shorter
than `max_line`. -/
theorem blank_line_reference (max_line : Nat) (garbage : Nat → Nat) (failed : Bool)
    (line : List Nat) (hne : line ≠ []) (h : ∀ c ∈ line, c = 32 ∨ c = 9 ∨ c = 13) :
    lineRef TYPE_M3U line = some [] ∧
      (line.length < max_line →
        (Demux max_line TYPE_M3U garbage true ⟨[line ++ [10]], failed⟩).sink = [[]]) := by
  have h0 : 0 ∉ line := by
    intro hh; rcases h 0 hh with h | h | h <;> omega
  have hr : lineRef TYPE_M3U line = some [] := by
    rw [lineRef_eq _ _ hne, cutAtNul_of_not_mem _ h0]
    simp [pureRef, m3uRef, stripBlanks_all_blank line h]
  refine ⟨hr, fun hlt => ?_⟩
  have heol : ∀ b ∈ line, b ≠ eol_tok TYPE_M3U := by
    intro b hb; rcases h b hb with h | h | h <;> rw [h] <;> decide
  have := Demux_single_line max_line TYPE_M3U garbage failed line heol
  rw [show eol_tok TYPE_M3U = 10 from rfl] at this
  rw [this, refsOf_cons_keep _ _ _ _ hne hlt, hr]
  simp [refsOf]

/-- C17 (failing input). In M3U format, `MAX_LINE` space characters followed
by a newline: the line is made only of spaces and its reference would be the
empty string, yet `Demux` forwards nothing and ends in the out-of-range
terminator write. -/
theorem Demux_full_line_of_spaces (garbage : Nat → Nat) :
    lineRef TYPE_M3U (List.replicate MAX_LINE 32) = some [] ∧
      ∃ st, Demux MAX_LINE TYPE_M3U garbage true
          ⟨[List.replicate MAX_LINE 32, [10]], false⟩ = .undefined st ∧
        st.playlist = [] := by
  have hpos : 0 < MAX_LINE := by unfold MAX_LINE; omega
  have hne := replicate_ne_nil MAX_LINE 32 hpos
  refine ⟨(blank_line_reference 0 garbage false _ hne (by
    intro c hc; rw [List.eq_of_mem_replicate hc]; simp)).1, ?_⟩
  exact Demux_exact_line_undefined MAX_LINE TYPE_M3U garbage _ (List.length_replicate _ _) hne
    (by intro b hb; rw [List.eq_of_mem_replicate hb]; decide)

theorem cutAtNul_nul_second (x : Nat) (rest : List Nat) (hx : x ≠ 0) :
    cutAtNul (x :: 0 :: rest) = [x] := by
  simp [cutAtNul, List.takeWhile_cons, hx]

/-- C18 (failing input). In M3U format, the line `a`, NUL, then `MAX_LINE - 2`
bytes `b`, followed by a newline: the line has exactly `MAX_LINE` bytes, its
cut before the first NUL byte is `a` and extraction gives `a`, yet `Demux`
forwards nothing and ends in the out-of-range terminator write. -/
theorem Demux_full_line_with_nul (garbage : Nat → Nat) :
    (97 :: 0 :: List.replicate 1022 98).length = MAX_LINE ∧
      cutAtNul (97 :: 0 :: List.replicate 1022 98) = [97] ∧
      lineRef TYPE_M3U (97 :: 0 :: List.replicate 1022 98) = some [97] ∧
      ∃ st, Demux MAX_LINE TYPE_M3U garbage true
          ⟨[97 :: 0 :: List.replicate 1022 98, [10]], false⟩ = .undefined st ∧
        st.playlist = [] := by
  have hlen : (97 :: 0 :: List.replicate 1022 98).length = MAX_LINE := by
    simp only [List.length_cons, List.length_replicate]
    rfl
  have hcut : cutAtNul (97 :: 0 :: List.replicate 1022 98) = [97] := by
    exact cutAtNul_nul_second 97 _ (by decide)
  have hne : (97 :: 0 :: List.replicate 1022 98) ≠ [] := List.cons_ne_nil _ _
  have href : lineRef TYPE_M3U (97 :: 0 :: List.replicate 1022 98) = some [97] := by
    rw [lineRef_eq _ _ hne, hcut]
    decide
  have heol : ∀ b ∈ (97 :: 0 :: List.replicate 1022 98), b ≠ eol_tok TYPE_M3U := by
    intro b hb
    rcases List.mem_cons.mp hb with hb | hb
    · rw [hb]; decide
    · rcases List.mem_cons.mp hb with hb | hb
      · rw [hb]; decide
      · rw [List.eq_of_mem_replicate hb]; decide
  exact ⟨hlen, hcut, href,
    Demux_exact_line_undefined MAX_LINE TYPE_M3U garbage _ hlen hne heol⟩

end M3u
